import Mathlib

/-!
Verification of the spatial projection and time-series aggregation engine of
the save-oceanside-sand repository, as implemented in
`scripts/compute_timeseries.py` and `scripts/create_interactive_mop_map.py`.

Python floats are modelled as real numbers; `float('inf')` (used only as the
initial minimum in `project_point_onto_transect`) is modelled by `Option ℝ`
with `none` standing for the initial infinity.  `round(x, n)` is modelled as
rounding `x * 10^n` to the nearest integer (Mathlib's `round`).
-/

namespace Sand

noncomputable section

open Real

/-- Python `math.radians`. -/
def radians (x : ℝ) : ℝ := x * π / 180

/-- Python `math.atan2 y x` (standard mathematical definition). -/
def atan2 (y x : ℝ) : ℝ :=
  if 0 < x then arctan (y / x)
  else if x < 0 ∧ 0 ≤ y then arctan (y / x) + π
  else if x < 0 ∧ y < 0 then arctan (y / x) - π
  else if x = 0 ∧ 0 < y then π / 2
  else if x = 0 ∧ y < 0 then -(π / 2)
  else 0

/-- `haversine_distance` from `compute_timeseries.py` (lines 23-30):
great-circle distance in meters. -/
def haversine_distance (lat1 lon1 lat2 lon2 : ℝ) : ℝ :=
  let R : ℝ := 6371000
  let lat1_rad := radians lat1
  let lat2_rad := radians lat2
  let dlat := radians (lat2 - lat1)
  let dlon := radians (lon2 - lon1)
  let a := Real.sin (dlat / 2) ^ 2 +
    Real.cos lat1_rad * Real.cos lat2_rad * Real.sin (dlon / 2) ^ 2
  R * 2 * atan2 (Real.sqrt a) (Real.sqrt (1 - a))

/-- Meters per degree of latitude used by the local planar approximation. -/
def lat_to_m : ℝ := 110574

/-- Meters per degree of longitude used by the local planar approximation. -/
def lon_to_m : ℝ := 92890

/-- `point_to_segment_distance` from `compute_timeseries.py` (lines 33-73).
Returns `(distance_meters, projection_ratio, distance_along_segment_meters)`. -/
def point_to_segment_distance (px py x1 y1 x2 y2 : ℝ) : ℝ × ℝ × ℝ :=
  let px_m := (px - x1) * lon_to_m
  let py_m := (py - y1) * lat_to_m
  let x2_m := (x2 - x1) * lon_to_m
  let y2_m := (y2 - y1) * lat_to_m
  let seg_len_sq := x2_m ^ 2 + y2_m ^ 2
  if seg_len_sq < 1e-10 then
    (Real.sqrt (px_m ^ 2 + py_m ^ 2), 0.0, 0.0)
  else
    let t := max 0 (min 1 ((px_m * x2_m + py_m * y2_m) / seg_len_sq))
    let proj_x := t * x2_m
    let proj_y := t * y2_m
    let dist := Real.sqrt ((px_m - proj_x) ^ 2 + (py_m - proj_y) ^ 2)
    let dist_along := t * Real.sqrt seg_len_sq
    (dist, t, dist_along)

/-- The squared local-planar length of the segment from `c1` to `c2`,
exactly the quantity `seg_len_sq` computed inside `point_to_segment_distance`. -/
def seg_len_sq (c1 c2 : ℝ × ℝ) : ℝ :=
  ((c2.1 - c1.1) * lon_to_m) ^ 2 + ((c2.2 - c1.2) * lat_to_m) ^ 2

/-- The loop of `project_point_onto_transect` (lines 90-106).  The state is
`(min_dist, best_dist_along, cumulative_dist)`; `min_dist = none` models the
initial `float('inf')`, against which any distance compares as smaller. -/
def projectLoop (px py : ℝ) :
    List (ℝ × ℝ) → Option ℝ → ℝ → ℝ → Option ℝ × ℝ
  | c1 :: c2 :: rest, min_dist, best_dist_along, cumulative_dist =>
    let seg_len := haversine_distance c1.2 c1.1 c2.2 c2.1
    let r := point_to_segment_distance px py c1.1 c1.2 c2.1 c2.2
    (match min_dist with
     | none =>
        projectLoop px py (c2 :: rest) (some r.1)
          (cumulative_dist + r.2.2) (cumulative_dist + seg_len)
     | some m =>
        if r.1 < m then
          projectLoop px py (c2 :: rest) (some r.1)
            (cumulative_dist + r.2.2) (cumulative_dist + seg_len)
        else
          projectLoop px py (c2 :: rest) (some m)
            best_dist_along (cumulative_dist + seg_len))
  | _, min_dist, best_dist_along, _ => (min_dist, best_dist_along)

/-- `project_point_onto_transect` from `compute_timeseries.py` (lines 76-110):
returns `(distance_to_line, distance_along_transect)` or `none` if farther
than the 1 meter buffer from every segment. -/
def project_point_onto_transect (point_lon point_lat : ℝ)
    (transect_coords : List (ℝ × ℝ)) : Option (ℝ × ℝ) :=
  let BUFFER_METERS : ℝ := 1.0
  match projectLoop point_lon point_lat transect_coords none 0 0 with
  | (none, _) => none
  | (some min_dist, best_dist_along) =>
      if min_dist ≤ BUFFER_METERS then some (min_dist, best_dist_along) else none

/-- The list of consecutive vertex pairs (segments) of a polyline. -/
def segPairs : List (ℝ × ℝ) → List ((ℝ × ℝ) × (ℝ × ℝ))
  | c1 :: c2 :: rest => (c1, c2) :: segPairs (c2 :: rest)
  | _ => []

/-- Per-segment data relevant to the projection loop:
(point-to-segment distance, distance along the segment, haversine length). -/
def segTriple (px py : ℝ) (s : (ℝ × ℝ) × (ℝ × ℝ)) : ℝ × ℝ × ℝ :=
  ((point_to_segment_distance px py s.1.1 s.1.2 s.2.1 s.2.2).1,
   (point_to_segment_distance px py s.1.1 s.1.2 s.2.1 s.2.2).2.2,
   haversine_distance s.1.2 s.1.1 s.2.2 s.2.1)

/-- The perpendicular (point-to-segment) distance from the point to segment `s`. -/
def segDist (px py : ℝ) (s : (ℝ × ℝ) × (ℝ × ℝ)) : ℝ :=
  (point_to_segment_distance px py s.1.1 s.1.2 s.2.1 s.2.2).1

/-- The haversine length of segment `s` (as accumulated by the loop). -/
def segHav (s : (ℝ × ℝ) × (ℝ × ℝ)) : ℝ :=
  haversine_distance s.1.2 s.1.1 s.2.2 s.2.1

/-- The projection loop expressed on the list of per-segment triples. -/
def loopInfo : List (ℝ × ℝ × ℝ) → Option ℝ → ℝ → ℝ → Option ℝ × ℝ
  | [], mo, best, _ => (mo, best)
  | x :: rest, mo, best, cum =>
    match mo with
    | none => loopInfo rest (some x.1) (cum + x.2.1) (cum + x.2.2)
    | some m =>
      if x.1 < m then loopInfo rest (some x.1) (cum + x.2.1) (cum + x.2.2)
      else loopInfo rest (some m) best (cum + x.2.2)

lemma projectLoop_eq_loopInfo (px py : ℝ) :
    ∀ (l : List (ℝ × ℝ)) (mo : Option ℝ) (best cum : ℝ),
    projectLoop px py l mo best cum =
      loopInfo ((segPairs l).map (segTriple px py)) mo best cum
  | [], mo, best, cum => by cases mo <;> simp [projectLoop, segPairs, loopInfo]
  | [c], mo, best, cum => by cases mo <;> simp [projectLoop, segPairs, loopInfo]
  | c1 :: c2 :: rest, mo, best, cum => by
    cases mo with
    | none =>
      simp only [projectLoop, segPairs, List.map_cons, loopInfo]
      exact projectLoop_eq_loopInfo px py (c2 :: rest) _ _ _
    | some m =>
      simp only [projectLoop, segPairs, List.map_cons, loopInfo, segTriple]
      split
      · exact projectLoop_eq_loopInfo px py (c2 :: rest) _ _ _
      · exact projectLoop_eq_loopInfo px py (c2 :: rest) _ _ _

/-- Characterization of the projection loop started with a finite minimum `m`:
either no segment beats `m` and the state is unchanged, or there is a first
index strictly improving on `m` that realizes the final minimum. -/
lemma loopInfo_spec (l : List (ℝ × ℝ × ℝ)) : ∀ (m best cum : ℝ),
    ((∀ x ∈ l, m ≤ x.1) ∧ loopInfo l (some m) best cum = (some m, best)) ∨
    (∃ i : Fin l.length,
      (l.get i).1 < m ∧
      (∀ j : Fin l.length, (j : ℕ) < (i : ℕ) → (l.get i).1 < (l.get j).1) ∧
      (∀ j : Fin l.length, (l.get i).1 ≤ (l.get j).1) ∧
      loopInfo l (some m) best cum =
        (some (l.get i).1,
         cum + ((l.take i).map (fun x => x.2.2)).sum + (l.get i).2.1)) := by
  induction l with
  | nil => intro m best cum; left; exact ⟨by simp, by simp [loopInfo]⟩
  | cons x rest ih =>
    intro m best cum
    by_cases hx : x.1 < m
    · right
      rcases ih x.1 (cum + x.2.1) (cum + x.2.2) with ⟨hall, heq⟩ | ⟨i, hlt, hfirst, hmin, heq⟩
      · refine ⟨⟨0, by simp⟩, by simpa using hx, by intro j hj; exact absurd hj (by simp), ?_, ?_⟩
        · intro j
          rcases j with ⟨j, hj⟩
          cases j with
          | zero => simp
          | succ k =>
            have hk : k < rest.length := by simpa using hj
            have := hall (rest.get ⟨k, hk⟩) (List.get_mem _ _ _)
            simpa using this
        · simp only [loopInfo, if_pos hx, heq]
          simp
      · rcases i with ⟨i, hilen⟩
        refine ⟨⟨i + 1, by simpa using Nat.succ_lt_succ hilen⟩, ?_, ?_, ?_, ?_⟩
        · simpa using lt_trans hlt hx
        · intro j hj
          rcases j with ⟨j, hjlen⟩
          cases j with
          | zero => simpa using hlt
          | succ k =>
            have hk : k < rest.length := by simpa using hjlen
            have := hfirst ⟨k, hk⟩ (by simpa using hj)
            simpa using this
        · intro j
          rcases j with ⟨j, hjlen⟩
          cases j with
          | zero => simpa using le_of_lt hlt
          | succ k =>
            have hk : k < rest.length := by simpa using hjlen
            have := hmin ⟨k, hk⟩
            simpa using this
        · simp only [loopInfo, if_pos hx]
          rw [heq]
          simp only [List.get_cons_succ, List.take_succ_cons, List.map_cons, List.sum_cons]
          refine congrArg _ ?_
          ring
    · -- m ≤ x.1 : the head does not improve the minimum
      push_neg at hx
      rcases ih m best (cum + x.2.2) with ⟨hall, heq⟩ | ⟨i, hlt, hfirst, hmin, heq⟩
      · left
        constructor
        · intro y hy
          rcases List.mem_cons.mp hy with rfl | hy
          · exact hx
          · exact hall y hy
        · simp only [loopInfo, if_neg (not_lt.mpr hx), heq]
      · right
        rcases i with ⟨i, hilen⟩
        refine ⟨⟨i + 1, by simpa using Nat.succ_lt_succ hilen⟩, ?_, ?_, ?_, ?_⟩
        · simpa using hlt
        · intro j hj
          rcases j with ⟨j, hjlen⟩
          cases j with
          | zero => simpa using lt_of_lt_of_le hlt hx
          | succ k =>
            have hk : k < rest.length := by simpa using hjlen
            have := hfirst ⟨k, hk⟩ (by simpa using hj)
            simpa using this
        · intro j
          rcases j with ⟨j, hjlen⟩
          cases j with
          | zero => simpa using le_of_lt (lt_of_lt_of_le hlt hx)
          | succ k =>
            have hk : k < rest.length := by simpa using hjlen
            have := hmin ⟨k, hk⟩
            simpa using this
        · simp only [loopInfo, if_neg (not_lt.mpr hx)]
          rw [heq]
          simp only [List.get_cons_succ, List.take_succ_cons, List.map_cons, List.sum_cons]
          refine congrArg _ ?_
          ring

lemma segPairs_length : ∀ l : List (ℝ × ℝ), (segPairs l).length = l.length - 1
  | [] => by simp [segPairs]
  | [c] => by simp [segPairs]
  | c1 :: c2 :: rest => by
    simp only [segPairs, List.length_cons]
    rw [segPairs_length (c2 :: rest)]
    simp

/-- The loop started from the infinite initial minimum on a nonempty segment
list ends at the first index realizing the minimum distance. -/
lemma loopInfo_none_spec (x : ℝ × ℝ × ℝ) (rest : List (ℝ × ℝ × ℝ)) (best cum : ℝ) :
    ∃ i : Fin (x :: rest).length,
      (∀ j : Fin (x :: rest).length, (j : ℕ) < (i : ℕ) →
        ((x :: rest).get i).1 < ((x :: rest).get j).1) ∧
      (∀ j : Fin (x :: rest).length, ((x :: rest).get i).1 ≤ ((x :: rest).get j).1) ∧
      loopInfo (x :: rest) none best cum =
        (some ((x :: rest).get i).1,
         cum + (((x :: rest).take i).map (fun y => y.2.2)).sum + ((x :: rest).get i).2.1) := by
  have hstep : loopInfo (x :: rest) none best cum =
      loopInfo rest (some x.1) (cum + x.2.1) (cum + x.2.2) := by
    simp [loopInfo]
  rcases loopInfo_spec rest x.1 (cum + x.2.1) (cum + x.2.2) with ⟨hall, heq⟩ | ⟨i, hlt, hfirst, hmin, heq⟩
  · refine ⟨⟨0, by simp⟩, by intro j hj; exact absurd hj (by simp), ?_, ?_⟩
    · intro j
      rcases j with ⟨j, hj⟩
      cases j with
      | zero => simp
      | succ k =>
        have hk : k < rest.length := by simpa using hj
        have := hall (rest.get ⟨k, hk⟩) (List.get_mem _ _ _)
        simpa using this
    · rw [hstep, heq]; simp
  · rcases i with ⟨i, hilen⟩
    refine ⟨⟨i + 1, by simpa using Nat.succ_lt_succ hilen⟩, ?_, ?_, ?_⟩
    · intro j hj
      rcases j with ⟨j, hjlen⟩
      cases j with
      | zero => simpa using hlt
      | succ k =>
        have hk : k < rest.length := by simpa using hjlen
        have := hfirst ⟨k, hk⟩ (by simpa using hj)
        simpa using this
    · intro j
      rcases j with ⟨j, hjlen⟩
      cases j with
      | zero => simpa using le_of_lt hlt
      | succ k =>
        have hk : k < rest.length := by simpa using hjlen
        have := hmin ⟨k, hk⟩
        simpa using this
    · rw [hstep, heq]
      simp only [List.get_cons_succ, List.take_succ_cons, List.map_cons, List.sum_cons]
      refine congrArg _ ?_
      ring

lemma dist_along_eq_t_mul_sqrt (px py : ℝ) (c1 c2 : ℝ × ℝ) :
    (point_to_segment_distance px py c1.1 c1.2 c2.1 c2.2).2.2 =
      (point_to_segment_distance px py c1.1 c1.2 c2.1 c2.2).2.1 *
        Real.sqrt (seg_len_sq c1 c2) := by
  unfold point_to_segment_distance seg_len_sq
  dsimp only
  split
  · norm_num
  · rfl

/-- `loopInfo_none_spec` for an arbitrary nonempty list. -/
lemma loopInfo_none_spec' (l : List (ℝ × ℝ × ℝ)) (hne : l ≠ []) (best cum : ℝ) :
    ∃ i : Fin l.length,
      (∀ j : Fin l.length, (j : ℕ) < (i : ℕ) → (l.get i).1 < (l.get j).1) ∧
      (∀ j : Fin l.length, (l.get i).1 ≤ (l.get j).1) ∧
      loopInfo l none best cum =
        (some (l.get i).1,
         cum + ((l.take i).map (fun y => y.2.2)).sum + (l.get i).2.1) := by
  cases l with
  | nil => exact absurd rfl hne
  | cons x rest => exact loopInfo_none_spec x rest best cum

/-- The final loop state on a polyline with at least two vertices. -/
lemma project_loop_final (px py : ℝ) (coords : List (ℝ × ℝ)) (h : 2 ≤ coords.length) :
    ∃ i : Fin (segPairs coords).length,
      (∀ j : Fin (segPairs coords).length, (j : ℕ) < (i : ℕ) →
        segDist px py ((segPairs coords).get i) < segDist px py ((segPairs coords).get j)) ∧
      (∀ j : Fin (segPairs coords).length,
        segDist px py ((segPairs coords).get i) ≤ segDist px py ((segPairs coords).get j)) ∧
      projectLoop px py coords none 0 0 =
        (some (segDist px py ((segPairs coords).get i)),
         (((segPairs coords).take i).map segHav).sum +
           (point_to_segment_distance px py ((segPairs coords).get i).1.1
             ((segPairs coords).get i).1.2 ((segPairs coords).get i).2.1
             ((segPairs coords).get i).2.2).2.2) := by
  have hplen : (segPairs coords).length = coords.length - 1 := segPairs_length coords
  have hlen : 0 < (segPairs coords).length := by omega
  have hlen2 : ((segPairs coords).map (segTriple px py)).length = (segPairs coords).length :=
    List.length_map _ _
  have hne : (segPairs coords).map (segTriple px py) ≠ [] := by
    intro hc
    rw [hc] at hlen2
    simp at hlen2
    omega
  obtain ⟨i, hfirst, hmin, heq⟩ := loopInfo_none_spec' _ hne 0 0
  have hget : ∀ (k : ℕ) (hk1 : k < ((segPairs coords).map (segTriple px py)).length)
      (hk2 : k < (segPairs coords).length),
      ((segPairs coords).map (segTriple px py)).get ⟨k, hk1⟩ =
        segTriple px py ((segPairs coords).get ⟨k, hk2⟩) := by
    intro k hk1 hk2
    simp [List.get_eq_getElem]
  rcases i with ⟨iv, hiv⟩
  have hiv2 : iv < (segPairs coords).length := by omega
  refine ⟨⟨iv, hiv2⟩, ?_, ?_, ?_⟩
  · intro j hj
    rcases j with ⟨jv, hjv⟩
    have hjv1 : jv < ((segPairs coords).map (segTriple px py)).length := by omega
    have := hfirst ⟨jv, hjv1⟩ hj
    rw [hget iv hiv hiv2, hget jv hjv1 hjv] at this
    simpa [segTriple, segDist] using this
  · intro j
    rcases j with ⟨jv, hjv⟩
    have hjv1 : jv < ((segPairs coords).map (segTriple px py)).length := by omega
    have := hmin ⟨jv, hjv1⟩
    rw [hget iv hiv hiv2, hget jv hjv1 hjv] at this
    simpa [segTriple, segDist] using this
  · rw [projectLoop_eq_loopInfo, heq, hget iv hiv hiv2]
    have htake : ((((segPairs coords).map (segTriple px py)).take iv).map (fun y => y.2.2)) =
        (((segPairs coords).take iv).map segHav) := by
      rw [← List.map_take, List.map_map]
      rfl
    rw [htake]
    simp [segTriple, segDist]

/-- C1: for every point and reference line with at least 2 vertices,
`project_point_onto_transect` returns `none` iff the minimum perpendicular
(point-to-segment) distance from the point to every segment exceeds 1.0 m;
when some segment is within 1.0 m it returns a projection carrying that
minimum distance. -/
theorem C1_buffer_semantics (px py : ℝ) (coords : List (ℝ × ℝ)) (h : 2 ≤ coords.length) :
    (project_point_onto_transect px py coords = none ↔
      ∀ s ∈ segPairs coords, 1 < segDist px py s) ∧
    (∀ d b : ℝ, project_point_onto_transect px py coords = some (d, b) →
      d ≤ 1 ∧ (∃ s ∈ segPairs coords, segDist px py s = d) ∧
      (∀ s ∈ segPairs coords, d ≤ segDist px py s)) := by
  obtain ⟨i, hfirst, hmin, hloop⟩ := project_loop_final px py coords h
  have hproj : project_point_onto_transect px py coords =
      if segDist px py ((segPairs coords).get i) ≤ 1 then
        some (segDist px py ((segPairs coords).get i),
          (((segPairs coords).take i).map segHav).sum +
            (point_to_segment_distance px py ((segPairs coords).get i).1.1
              ((segPairs coords).get i).1.2 ((segPairs coords).get i).2.1
              ((segPairs coords).get i).2.2).2.2)
      else none := by
    unfold project_point_onto_transect
    rw [hloop]
    norm_num
  constructor
  · by_cases hD : segDist px py ((segPairs coords).get i) ≤ 1
    · rw [hproj, if_pos hD]
      constructor
      · intro hc; exact absurd hc (by simp)
      · intro hall
        have := hall _ (List.get_mem (segPairs coords) i.1 i.2)
        exact absurd hD (not_le.mpr this)
    · rw [hproj, if_neg hD]
      constructor
      · intro _ s hs
        obtain ⟨j, hj⟩ := List.mem_iff_get.mp hs
        have := hmin j
        rw [hj] at this
        exact lt_of_lt_of_le (not_le.mp hD) this
      · intro _; rfl
  · intro d b hdb
    rw [hproj] at hdb
    by_cases hD : segDist px py ((segPairs coords).get i) ≤ 1
    · rw [if_pos hD] at hdb
      have hd : d = segDist px py ((segPairs coords).get i) := by
        have := (Option.some.injEq _ _).mp hdb
        exact (congrArg Prod.fst this).symm
      subst hd
      refine ⟨hD, ⟨(segPairs coords).get i, List.get_mem _ _ _, rfl⟩, ?_⟩
      intro s hs
      obtain ⟨j, hj⟩ := List.mem_iff_get.mp hs
      rw [← hj]
      exact hmin j
    · rw [if_neg hD] at hdb
      exact absurd hdb (by simp)

/-- C2: for every accepted point the returned along-line distance equals the
sum of the haversine lengths of all segments preceding the minimizing segment
plus `t` times that segment's local-planar length; the minimizing segment is
the first (lowest-index) segment attaining the minimum perpendicular
distance. -/
theorem C2_along_line_distance (px py d b : ℝ) (coords : List (ℝ × ℝ))
    (h : 2 ≤ coords.length)
    (hp : project_point_onto_transect px py coords = some (d, b)) :
    ∃ i : Fin (segPairs coords).length,
      segDist px py ((segPairs coords).get i) = d ∧
      (∀ j : Fin (segPairs coords).length, (j : ℕ) < (i : ℕ) →
        d < segDist px py ((segPairs coords).get j)) ∧
      (∀ j : Fin (segPairs coords).length, d ≤ segDist px py ((segPairs coords).get j)) ∧
      b = (((segPairs coords).take i).map segHav).sum +
          (point_to_segment_distance px py ((segPairs coords).get i).1.1
            ((segPairs coords).get i).1.2 ((segPairs coords).get i).2.1
            ((segPairs coords).get i).2.2).2.1 *
          Real.sqrt (seg_len_sq ((segPairs coords).get i).1 ((segPairs coords).get i).2) := by
  obtain ⟨i, hfirst, hmin, hloop⟩ := project_loop_final px py coords h
  have hproj : project_point_onto_transect px py coords =
      if segDist px py ((segPairs coords).get i) ≤ 1 then
        some (segDist px py ((segPairs coords).get i),
          (((segPairs coords).take i).map segHav).sum +
            (point_to_segment_distance px py ((segPairs coords).get i).1.1
              ((segPairs coords).get i).1.2 ((segPairs coords).get i).2.1
              ((segPairs coords).get i).2.2).2.2)
      else none := by
    unfold project_point_onto_transect
    rw [hloop]
    norm_num
  rw [hproj] at hp
  by_cases hD : segDist px py ((segPairs coords).get i) ≤ 1
  · rw [if_pos hD] at hp
    have hp' := (Option.some.injEq _ _).mp hp
    have hd : segDist px py ((segPairs coords).get i) = d := congrArg Prod.fst hp'
    have hb : b = (((segPairs coords).take i).map segHav).sum +
        (point_to_segment_distance px py ((segPairs coords).get i).1.1
          ((segPairs coords).get i).1.2 ((segPairs coords).get i).2.1
          ((segPairs coords).get i).2.2).2.2 := (congrArg Prod.snd hp').symm
    refine ⟨i, hd, ?_, ?_, ?_⟩
    · intro j hj
      rw [← hd]
      exact hfirst j hj
    · intro j
      rw [← hd]
      exact hmin j
    · rw [hb, dist_along_eq_t_mul_sqrt px py ((segPairs coords).get i).1
        ((segPairs coords).get i).2]
  · rw [if_neg hD] at hp
    exact absurd hp (by simp)

/-- Python `round(x, n)` modelled over ℝ: round `x * 10^n` to the nearest
integer (Mathlib's `round`, which sends an exact half up; Python's
float-based rounding agrees away from exact representable halves) and scale
back. -/
def roundN (n : ℕ) (x : ℝ) : ℝ := ((round (x * 10 ^ n) : ℤ) : ℝ) / 10 ^ n

lemma roundN_mono (n : ℕ) {x y : ℝ} (h : x ≤ y) : roundN n x ≤ roundN n y := by
  unfold roundN
  have hp : (0 : ℝ) < 10 ^ n := by positivity
  have : round (x * 10 ^ n) ≤ round (y * 10 ^ n) := by
    rw [round_eq, round_eq]
    exact Int.floor_le_floor (by nlinarith)
  have hc : ((round (x * 10 ^ n) : ℤ) : ℝ) ≤ ((round (y * 10 ^ n) : ℤ) : ℝ) := by exact_mod_cast this
  exact div_le_div_of_nonneg_right hc hp.le


lemma roundN_intCast (n : ℕ) (m : ℤ) : roundN n ((m : ℝ) / 10 ^ n) = (m : ℝ) / 10 ^ n := by
  unfold roundN
  have hp : (10 : ℝ) ^ n ≠ 0 := by positivity
  rw [div_mul_cancel₀ _ hp, round_intCast]

lemma roundN_exists_int (n : ℕ) (x : ℝ) : ∃ m : ℤ, roundN n x = (m : ℝ) / 10 ^ n :=
  ⟨round (x * 10 ^ n), rfl⟩

/-- Evaluation rule for `roundN` at concrete rational inputs. -/
lemma roundN_eval (n : ℕ) (x : ℝ) (m : ℤ) (h1 : (m : ℝ) ≤ x * 10 ^ n + 1 / 2)
    (h2 : x * 10 ^ n + 1 / 2 < m + 1) : roundN n x = (m : ℝ) / 10 ^ n := by
  unfold roundN
  rw [round_eq, Int.floor_eq_iff.mpr ⟨h1, h2⟩]

/-- A GPS point as carried through `compute_timeseries.py`:
the tuple `(lon, lat, height, quality, survey_date)` of `main` (lines 238-244). -/
structure GeoPoint where
  lon : ℝ
  lat : ℝ
  height : ℝ
  quality : String
  survey_date : String

/-- An accepted projection entry as appended in lines 178-183. -/
structure ProjRecord where
  distance : ℝ
  elevation : ℝ
  quality : String
  perp_distance : ℝ

/-- A deduplicated output bin (lines 202-205). -/
structure BinRec where
  distance : ℝ
  elevation : ℝ

/-- A per-date profile (lines 209-213). -/
structure DateProfile where
  distances : List ℝ
  elevations : List ℝ
  point_count : ℕ

/-- Python `int()` applied to a float ratio: truncation toward zero. -/
def intTrunc (x : ℝ) : ℤ := if x < 0 then -⌊-x⌋ else ⌊x⌋

/-- The grid cell a coordinate is put into by `build_spatial_index`
(lines 123-124): `int(lon / cell_size), int(lat / cell_size)`. -/
def cellKey (lon lat cell_size : ℝ) : ℤ × ℤ :=
  (intTrunc (lon / cell_size), intTrunc (lat / cell_size))

/-- `build_spatial_index` from `compute_timeseries.py` (lines 113-127);
the `defaultdict(list)` is modelled as a total function from cells to the
list of points appended to that cell, in input order. -/
def build_spatial_index (all_points : List GeoPoint) (cell_size : ℝ) :
    ℤ × ℤ → List GeoPoint :=
  all_points.foldl
    (fun index p => fun c =>
      if c = cellKey p.lon p.lat cell_size then index c ++ [p] else index c)
    (fun _ => [])

/-- `get_nearby_cells` from `compute_timeseries.py` (lines 130-140). -/
def get_nearby_cells (lon lat cell_size : ℝ) (buffer_cells : ℕ) : List (ℤ × ℤ) :=
  let center_x := intTrunc (lon / cell_size)
  let center_y := intTrunc (lat / cell_size)
  (List.range (2 * buffer_cells + 1)).flatMap (fun (dx : ℕ) =>
    (List.range (2 * buffer_cells + 1)).map (fun (dy : ℕ) =>
      (center_x + (dx : ℤ) - (buffer_cells : ℤ), center_y + (dy : ℤ) - (buffer_cells : ℤ))))

/-- Candidate gathering of `compute_transect_timeseries` (lines 157-166):
walk the transect's vertices, query the 3x3 cell neighborhood of each,
and extend the candidate list with each cell's points at most once
(`checked_cells`). -/
def gatherCandidates (coords : List (ℝ × ℝ)) (spatial_index : ℤ × ℤ → List GeoPoint)
    (cell_size : ℝ) : List GeoPoint :=
  (coords.foldl
    (fun acc coord =>
      (get_nearby_cells coord.1 coord.2 cell_size 1).foldl
        (fun acc2 cell =>
          if cell ∈ acc2.2 then acc2 else (acc2.1 ++ spatial_index cell, acc2.2 ++ [cell]))
        acc)
    (([], []) : List GeoPoint × List (ℤ × ℤ))).1

/-- Projection and per-date grouping of `compute_transect_timeseries`
(lines 170-183), flattened to (date, record) pairs in candidate order;
`points_by_date[d]` is recovered by filtering on the date. -/
def acceptedRecords (coords : List (ℝ × ℝ)) (candidate_points : List GeoPoint) :
    List (String × ProjRecord) :=
  candidate_points.filterMap (fun p =>
    (project_point_onto_transect p.lon p.lat coords).map (fun r =>
      (p.survey_date, ⟨roundN 2 r.2, roundN 3 p.height, p.quality, roundN 3 r.1⟩)))

/-- The records of one survey date, in insertion order. -/
def pointsForDate (recs : List (String × ProjRecord)) (date_str : String) :
    List ProjRecord :=
  (recs.filter (fun r => r.1 == date_str)).map (fun r => r.2)

/-- The inner `while` of the deduplication loop (lines 194-198): the members
of the current group after its first member, and the remaining points. -/
def takeGroup (first : ProjRecord) : List ProjRecord → List ProjRecord × List ProjRecord
  | [] => ([], [])
  | p :: rest =>
    if p.distance - first.distance < 0.5 then
      let gr := takeGroup first rest
      (p :: gr.1, gr.2)
    else ([], p :: rest)

lemma takeGroup_snd_length (first : ProjRecord) :
    ∀ l : List ProjRecord, (takeGroup first l).2.length ≤ l.length
  | [] => by simp [takeGroup]
  | p :: rest => by
    unfold takeGroup
    split
    · have := takeGroup_snd_length first rest
      simp only [List.length_cons]
      omega
    · simp

/-- The outer deduplication loop (lines 190-206): group sorted points whose
distance is within 0.5 m of the group's first member, then emit the rounded
averages of each group. -/
def deduplicated : List ProjRecord → List BinRec
  | [] => []
  | p :: rest =>
    let gr := takeGroup p rest
    let group := p :: gr.1
    ⟨roundN 2 ((group.map (fun q => q.distance)).sum / group.length),
     roundN 3 ((group.map (fun q => q.elevation)).sum / group.length)⟩ ::
      deduplicated gr.2
termination_by l => l.length
decreasing_by
  have := takeGroup_snd_length p rest
  simp only [List.length_cons]
  omega

/-- The grouping of the deduplication loop as a partition: each chunk is its
first member plus the members collected by the inner while loop. -/
def chunksBy : List ProjRecord → List (ProjRecord × List ProjRecord)
  | [] => []
  | p :: rest =>
    let gr := takeGroup p rest
    (p, gr.1) :: chunksBy gr.2
termination_by l => l.length
decreasing_by
  have := takeGroup_snd_length p rest
  simp only [List.length_cons]
  omega

/-- The rounded averages of one group (lines 200-205). -/
def avgBin (c : ProjRecord × List ProjRecord) : BinRec :=
  let group := c.1 :: c.2
  ⟨roundN 2 ((group.map (fun q => q.distance)).sum / group.length),
   roundN 3 ((group.map (fun q => q.elevation)).sum / group.length)⟩

/-- Per-date profile construction (lines 186-213): sort by distance,
deduplicate, keep only if at least 5 bins remain. -/
def dateProfile (recs : List (String × ProjRecord)) (date_str : String) :
    Option DateProfile :=
  let points := pointsForDate recs date_str
  let sorted_points := points.mergeSort (fun a b => decide (a.distance ≤ b.distance))
  let dedup := deduplicated sorted_points
  if 5 ≤ dedup.length then
    some ⟨dedup.map (fun b => b.distance), dedup.map (fun b => b.elevation), dedup.length⟩
  else none

/-- The distinct survey dates of the accepted records, in first-appearance
order (the key order of the Python `defaultdict`). -/
def datesInOrder (recs : List (String × ProjRecord)) : List String :=
  (recs.map (fun r => r.1)).foldl (fun acc d => if d ∈ acc then acc else acc ++ [d]) []

/-- The `timeseries` dict of `compute_transect_timeseries` (lines 186-213),
as an association list in date order. -/
def transectTimeseries (recs : List (String × ProjRecord)) :
    List (String × DateProfile) :=
  (datesInOrder recs).filterMap (fun d => (dateProfile recs d).map (fun prof => (d, prof)))

/-- A transect feature: coordinates plus the properties used (lines 151-154). -/
structure TransectFeature where
  coords : List (ℝ × ℝ)
  transect_id : String
  survey_date : String

/-- The record returned by `compute_transect_timeseries` (lines 215-220). -/
structure TransectRecord where
  transect_id : String
  base_date : String
  timeseries : List (String × DateProfile)
  num_dates : ℕ

/-- `compute_transect_timeseries` from `compute_timeseries.py` (lines 143-220). -/
def compute_transect_timeseries (feature : TransectFeature)
    (spatial_index : ℤ × ℤ → List GeoPoint) (cell_size : ℝ) : TransectRecord :=
  let candidate_points := gatherCandidates feature.coords spatial_index cell_size
  let recs := acceptedRecords feature.coords candidate_points
  let ts := transectTimeseries recs
  ⟨feature.transect_id, feature.survey_date, ts, ts.length⟩

/-- The output collection assembled by `main` (lines 265-273): records kept
only when `num_dates > 1`. -/
def emittedRecords (features : List TransectFeature)
    (spatial_index : ℤ × ℤ → List GeoPoint) (cell_size : ℝ) : List TransectRecord :=
  (features.map (fun f => compute_transect_timeseries f spatial_index cell_size)).filter
    (fun r => decide (1 < r.num_dates))

lemma takeGroup_append (first : ProjRecord) :
    ∀ l : List ProjRecord, (takeGroup first l).1 ++ (takeGroup first l).2 = l
  | [] => by simp [takeGroup]
  | p :: rest => by
    unfold takeGroup
    split
    · simpa using takeGroup_append first rest
    · simp

lemma takeGroup_fst_mem (first : ProjRecord) :
    ∀ l : List ProjRecord, ∀ q ∈ (takeGroup first l).1,
      q.distance - first.distance < 0.5
  | [] => by simp [takeGroup]
  | p :: rest => by
    unfold takeGroup
    split
    · intro q hq
      rcases List.mem_cons.mp hq with rfl | hq
      · assumption
      · exact takeGroup_fst_mem first rest q hq
    · simp

lemma takeGroup_snd_head (first : ProjRecord) :
    ∀ l : List ProjRecord, ∀ y : ProjRecord, ∀ ys : List ProjRecord,
      (takeGroup first l).2 = y :: ys → 0.5 ≤ y.distance - first.distance
  | [] => by simp [takeGroup]
  | p :: rest => by
    unfold takeGroup
    split
    · intro y ys h
      exact takeGroup_snd_head first rest y ys h
    · intro y ys h
      have hy : p = y := by
        have := congrArg (fun l => l.head?) h
        simpa using this
      subst hy
      linarith [not_lt.mp (by assumption : ¬ (p.distance - first.distance < 0.5))]

lemma chunksBy_flatten :
    ∀ l : List ProjRecord, ((chunksBy l).map (fun c => c.1 :: c.2)).flatten = l := by
  intro l
  induction l using chunksBy.induct with
  | case1 => simp [chunksBy]
  | case2 p rest gr ih =>
    rw [chunksBy]
    simp only [List.map_cons, List.flatten_cons, ih]
    rw [List.cons_append, takeGroup_append]

lemma chunksBy_members :
    ∀ l : List ProjRecord, ∀ c ∈ chunksBy l, ∀ q ∈ c.2,
      q.distance - c.1.distance < 0.5 := by
  intro l
  induction l using chunksBy.induct with
  | case1 => simp [chunksBy]
  | case2 p rest gr ih =>
    rw [chunksBy]
    intro c hc q hq
    rcases List.mem_cons.mp hc with rfl | hc
    · exact takeGroup_fst_mem p rest q hq
    · exact ih c hc q hq

lemma chunksBy_cons_of_cons (y : ProjRecord) (ys : List ProjRecord) :
    chunksBy (y :: ys) = (y, (takeGroup y ys).1) :: chunksBy (takeGroup y ys).2 := by
  rw [chunksBy]

lemma chunksBy_chain :
    ∀ l : List ProjRecord,
      List.Chain' (fun c c2 => 0.5 ≤ c2.1.distance - c.1.distance) (chunksBy l) := by
  intro l
  induction l using chunksBy.induct with
  | case1 => simp [chunksBy]
  | case2 p rest gr ih =>
    rw [chunksBy]
    rcases hgr : (takeGroup p rest).2 with _ | ⟨y, ys⟩
    · simp [chunksBy]
    · have ihx : List.Chain' (fun c c2 => 0.5 ≤ c2.1.distance - c.1.distance)
          (chunksBy (y :: ys)) := by rw [← hgr]; exact ih
      rw [chunksBy_cons_of_cons] at ihx ⊢
      rw [List.chain'_cons]
      exact ⟨takeGroup_snd_head p rest y ys hgr, ihx⟩

lemma deduplicated_eq_chunks :
    ∀ l : List ProjRecord, deduplicated l = (chunksBy l).map avgBin := by
  intro l
  induction l using chunksBy.induct with
  | case1 => simp [chunksBy, deduplicated]
  | case2 p rest gr ih =>
    rw [chunksBy, deduplicated, List.map_cons, ih]
    rfl

/-- C5 (amended): in the proximity-merge aggregation, the loop partitions the
input into contiguous groups; every non-first member of a group is strictly
less than 0.5 m beyond the group's first member, each successive group's
first member is at least 0.5 m beyond the previous group's first member
(so a point exactly 0.5 m beyond starts a new group), and each group is
reduced to the rounded averages of its members' distances and elevations. -/
theorem C5_grouping_rule (l : List ProjRecord) :
    deduplicated l = (chunksBy l).map avgBin ∧
    ((chunksBy l).map (fun c => c.1 :: c.2)).flatten = l ∧
    (∀ c ∈ chunksBy l, ∀ q ∈ c.2, q.distance - c.1.distance < 0.5) ∧
    List.Chain' (fun c c2 => 0.5 ≤ c2.1.distance - c.1.distance) (chunksBy l) ∧
    (∀ c ∈ chunksBy l, avgBin c =
      ⟨roundN 2 (((c.1 :: c.2).map (fun q => q.distance)).sum / (c.1 :: c.2).length),
       roundN 3 (((c.1 :: c.2).map (fun q => q.elevation)).sum / (c.1 :: c.2).length)⟩) :=
  ⟨deduplicated_eq_chunks l, chunksBy_flatten l, chunksBy_members l,
   chunksBy_chain l, fun _ _ => rfl⟩

lemma list_mean_le {l : List ℝ} {c : ℝ} (hne : l ≠ []) (h : ∀ x ∈ l, x ≤ c) :
    l.sum / l.length ≤ c := by
  have hlen : 0 < (l.length : ℝ) := by
    have := List.length_pos.mpr hne
    exact_mod_cast this
  rw [div_le_iff hlen]
  have := List.sum_le_card_nsmul l c h
  rw [nsmul_eq_mul] at this
  linarith [this, mul_comm (l.length : ℝ) c]

lemma le_list_mean {l : List ℝ} {c : ℝ} (hne : l ≠ []) (h : ∀ x ∈ l, c ≤ x) :
    c ≤ l.sum / l.length := by
  have hlen : 0 < (l.length : ℝ) := by
    have := List.length_pos.mpr hne
    exact_mod_cast this
  rw [le_div_iff hlen]
  have := List.card_nsmul_le_sum l c h
  rw [nsmul_eq_mul] at this
  linarith [this, mul_comm (l.length : ℝ) c]

/-- Two multiples of 0.01 that are less than 0.5 apart are at most 0.49 apart. -/
lemma int_grid_gap {a b : ℝ} {ma mb : ℤ} (ha : a = (ma : ℝ) / 10 ^ 2)
    (hb : b = (mb : ℝ) / 10 ^ 2) (h : b - a < 0.5) : b ≤ a + 0.49 := by
  subst ha hb
  have h1 : (mb : ℝ) - ma < 50 := by nlinarith
  have h2 : mb ≤ ma + 49 := by
    have : mb - ma < 50 := by exact_mod_cast h1
    omega
  have h3 : (mb : ℝ) ≤ (ma : ℝ) + 49 := by exact_mod_cast h2
  nlinarith

lemma mem_sublist_flatten {α : Type} (L : List (List α)) :
    ∀ l' ∈ L, l'.Sublist L.flatten := by
  induction L with
  | nil => simp
  | cons hd tl ih =>
    intro l' hl'
    rcases List.mem_cons.mp hl' with rfl | hl'
    · simpa using List.sublist_append_left l' tl.flatten
    · exact (ih l' hl').trans (by simpa using List.sublist_append_right hd tl.flatten)

lemma chain'_imp_mem {α : Type} {R S : α → α → Prop} {l : List α}
    (h : List.Chain' R l) (himp : ∀ a ∈ l, ∀ b ∈ l, R a b → S a b) :
    List.Chain' S l := by
  rw [List.chain'_iff_get] at h ⊢
  intro i hi
  exact himp _ (List.get_mem _ _ _) _ (List.get_mem _ _ _) (h i hi)

/-- Every member of a chunk belongs to the original list. -/
lemma chunk_members_mem (l : List ProjRecord) (c : ProjRecord × List ProjRecord)
    (hc : c ∈ chunksBy l) : ∀ q ∈ c.1 :: c.2, q ∈ l := by
  intro q hq
  rw [← chunksBy_flatten l]
  rw [List.mem_flatten]
  exact ⟨c.1 :: c.2, List.mem_map.mpr ⟨c, hc, rfl⟩, hq⟩

/-- On a sorted list, every chunk's first member bounds its other members
from below. -/
lemma chunk_sorted (l : List ProjRecord)
    (hsorted : l.Pairwise (fun a b => a.distance ≤ b.distance))
    (c : ProjRecord × List ProjRecord) (hc : c ∈ chunksBy l) :
    ∀ q ∈ c.2, c.1.distance ≤ q.distance := by
  have hsub : (c.1 :: c.2).Sublist l := by
    rw [← chunksBy_flatten l]
    exact mem_sublist_flatten _ _ (List.mem_map.mpr ⟨c, hc, rfl⟩)
  have := (List.pairwise_cons.mp (List.Pairwise.sublist hsub hsorted)).1
  exact this

/-- Bounds on the rounded average distance of one chunk, on a sorted list of
records whose distances are exact multiples of 0.01. -/
lemma chunk_bin_bounds (l : List ProjRecord)
    (hsorted : l.Pairwise (fun a b => a.distance ≤ b.distance))
    (hint : ∀ q ∈ l, ∃ m : ℤ, q.distance = (m : ℝ) / 10 ^ 2)
    (c : ProjRecord × List ProjRecord) (hc : c ∈ chunksBy l) :
    c.1.distance ≤ (avgBin c).distance ∧ (avgBin c).distance ≤ c.1.distance + 0.49 := by
  obtain ⟨m1, hm1⟩ := hint c.1 (chunk_members_mem l c hc c.1 (by simp))
  have hne : ((c.1 :: c.2).map (fun q => q.distance)) ≠ [] := by simp
  have hlen : ((c.1 :: c.2).map (fun q => q.distance)).length = (c.1 :: c.2).length := by
    simp
  constructor
  · have hlow : ∀ x ∈ (c.1 :: c.2).map (fun q => q.distance), c.1.distance ≤ x := by
      intro x hx
      obtain ⟨q, hq, rfl⟩ := List.mem_map.mp hx
      rcases List.mem_cons.mp hq with rfl | hq
      · exact le_refl _
      · exact chunk_sorted l hsorted c hc q hq
    have hmean : c.1.distance ≤
        ((c.1 :: c.2).map (fun q => q.distance)).sum / (c.1 :: c.2).length := by
      rw [← hlen]
      exact le_list_mean hne hlow
    have := roundN_mono 2 hmean
    rw [show roundN 2 c.1.distance = c.1.distance by rw [hm1, roundN_intCast]] at this
    exact this
  · have hhigh : ∀ x ∈ (c.1 :: c.2).map (fun q => q.distance),
        x ≤ c.1.distance + 0.49 := by
      intro x hx
      obtain ⟨q, hq, rfl⟩ := List.mem_map.mp hx
      rcases List.mem_cons.mp hq with rfl | hq
      · linarith
      · obtain ⟨m2, hm2⟩ := hint q (chunk_members_mem l c hc q (by simp [hq]))
        exact int_grid_gap hm1 hm2 (chunksBy_members l c hc q hq)
    have hmean : ((c.1 :: c.2).map (fun q => q.distance)).sum / (c.1 :: c.2).length ≤
        c.1.distance + 0.49 := by
      rw [← hlen]
      exact list_mean_le hne hhigh
    have hfix : roundN 2 (c.1.distance + 0.49) = c.1.distance + 0.49 := by
      have : c.1.distance + 0.49 = ((m1 + 49 : ℤ) : ℝ) / 10 ^ 2 := by
        rw [hm1]
        push_cast
        ring
      rw [this, roundN_intCast]
    have := roundN_mono 2 hmean
    rw [hfix] at this
    exact this

/-- On a sorted list of records whose distances are exact multiples of 0.01,
the deduplicated bin distances are strictly increasing. -/
lemma dedup_distances_chain (l : List ProjRecord)
    (hsorted : l.Pairwise (fun a b => a.distance ≤ b.distance))
    (hint : ∀ q ∈ l, ∃ m : ℤ, q.distance = (m : ℝ) / 10 ^ 2) :
    List.Chain' (· < ·) ((deduplicated l).map (fun b => b.distance)) := by
  rw [deduplicated_eq_chunks, List.map_map, List.chain'_map]
  refine chain'_imp_mem (chunksBy_chain l) ?_
  intro c hc c2 hc2 hR
  have b1 := chunk_bin_bounds l hsorted hint c hc
  have b2 := chunk_bin_bounds l hsorted hint c2 hc2
  show (avgBin c).distance < (avgBin c2).distance
  have : c.1.distance + 0.49 < c2.1.distance := by linarith
  linarith [b1.2, b2.1]

/-! Embedding of `create_interactive_mop_map.py` (the MOP pipeline). -/

/-- `LAT_TO_M` from `create_interactive_mop_map.py` (line 21). -/
def LAT_TO_M : ℝ := 110574

/-- `LON_TO_M` from `create_interactive_mop_map.py` (line 22). -/
def LON_TO_M : ℝ := 92890

/-- `BUFFER_M` from `create_interactive_mop_map.py` (line 23). -/
def BUFFER_M : ℝ := 1.0

/-- `np.linalg.norm` of a 2-vector. -/
def norm2 (x y : ℝ) : ℝ := Real.sqrt (x ^ 2 + y ^ 2)

/-- A MOP line as parsed from the KML (lines 52-59); `endp` models the
`end` key. -/
structure MopLine where
  name : String
  coords : List (ℝ × ℝ)
  start : ℝ × ℝ
  endp : ℝ × ℝ

/-- The per-point acceptance test of `compute_mop_timeseries` (lines 90-110):
bounding-box filter, chord projection, rejection outside `[0, mop_length]`,
and the 1 m orthogonal-distance buffer.  Returns `(dist_along, ortho_dist)`. -/
def mopPointCheck (s e : ℝ × ℝ) (lon lat : ℝ) : Option (ℝ × ℝ) :=
  let mop_vec_x := (e.1 - s.1) * LON_TO_M
  let mop_vec_y := (e.2 - s.2) * LAT_TO_M
  let mop_length := norm2 mop_vec_x mop_vec_y
  let mop_unit_x := mop_vec_x / mop_length
  let mop_unit_y := mop_vec_y / mop_length
  let min_lon := min s.1 e.1 - 0.0005
  let max_lon := max s.1 e.1 + 0.0005
  let min_lat := min s.2 e.2 - 0.0005
  let max_lat := max s.2 e.2 + 0.0005
  if min_lon ≤ lon ∧ lon ≤ max_lon ∧ min_lat ≤ lat ∧ lat ≤ max_lat then
    let px := (lon - s.1) * LON_TO_M
    let py := (lat - s.2) * LAT_TO_M
    let dist_along := px * mop_unit_x + py * mop_unit_y
    if dist_along < 0 ∨ dist_along > mop_length then none
    else
      let ortho_dist := norm2 (px - dist_along * mop_unit_x) (py - dist_along * mop_unit_y)
      if ortho_dist ≤ BUFFER_M then some (dist_along, ortho_dist) else none
  else none

/-- `np.arange(0, mop_length + 0.5, 0.5)` (line 118). -/
def mopBins (mop_length : ℝ) : List ℝ :=
  (List.range (Nat.ceil ((mop_length + 0.5 - 0) / 0.5))).map
    (fun (k : ℕ) => 0 + 0.5 * (k : ℝ))

/-- `np.digitize` with `right=False` against an increasing edge list:
the number of edges not exceeding `x`. -/
def digitize (x : ℝ) (bins : List ℝ) : ℕ :=
  (bins.filter (fun b => decide (b ≤ x))).length

/-- The nonempty bin groups of the binning loop (lines 119-126), in bin
order; each group is the subsequence of sorted points with `bin_idx == b`. -/
def mopGroups (sorted : List (ℝ × ℝ)) (bins : List ℝ) : List (List (ℝ × ℝ)) :=
  ((List.range bins.length).drop 1).filterMap (fun b =>
    let g := sorted.filter (fun p => decide (digitize p.1 bins = b))
    if g.isEmpty then none else some g)

/-- A MOP profile (lines 129-132). -/
structure MopProfile where
  distances : List ℝ
  elevations : List ℝ

/-- One date's profile computation in `compute_mop_timeseries`
(lines 112-132): at least 5 accepted points, 0.5 m fixed-width binning of the
raw along-distances, per-bin raw means, at least 5 nonempty bins, then
rounding. -/
def mopProfile (mop_length : ℝ) (date_points : List (ℝ × ℝ)) : Option MopProfile :=
  if 5 ≤ date_points.length then
    let sorted := date_points.mergeSort (fun a b => decide (a.1 ≤ b.1))
    let bins := mopBins mop_length
    let groups := mopGroups sorted bins
    let bd := groups.map (fun g => (g.map Prod.fst).sum / (g.length : ℝ))
    let bh := groups.map (fun g => (g.map Prod.snd).sum / (g.length : ℝ))
    if 5 ≤ bd.length then
      some ⟨bd.map (roundN 2), bh.map (roundN 3)⟩
    else none
  else none

/-- The record returned by `compute_mop_timeseries` (lines 137-142). -/
structure MopRecord where
  mop_name : String
  mop_length : ℝ
  num_dates : ℕ
  profiles : List (String × MopProfile)

/-- `compute_mop_timeseries` from `create_interactive_mop_map.py`
(lines 64-142). -/
def compute_mop_timeseries (mop : MopLine)
    (all_points_by_date : List (String × List (ℝ × ℝ × ℝ))) : Option MopRecord :=
  let mop_vec_x := (mop.endp.1 - mop.start.1) * LON_TO_M
  let mop_vec_y := (mop.endp.2 - mop.start.2) * LAT_TO_M
  let mop_length := norm2 mop_vec_x mop_vec_y
  if mop_length < 1 then none
  else
    let profiles := all_points_by_date.filterMap (fun dp =>
      let date_points := dp.2.filterMap (fun p =>
        (mopPointCheck mop.start mop.endp p.1 p.2.1).map (fun r => (r.1, p.2.2)))
      (mopProfile mop_length date_points).map (fun prof => (dp.1, prof)))
    if profiles.length < 1 then none
    else some ⟨mop.name, roundN 1 mop_length, profiles.length, profiles⟩

lemma list_mean_lt {l : List ℝ} {c : ℝ} (hne : l ≠ []) (h : ∀ x ∈ l, x < c) :
    l.sum / l.length < c := by
  cases l with
  | nil => exact absurd rfl hne
  | cons z zs =>
    have hz : z < c := h z (by simp)
    have hzs : zs.sum ≤ zs.length • c :=
      List.sum_le_card_nsmul zs c (fun x hx => le_of_lt (h x (by simp [hx])))
    rw [nsmul_eq_mul] at hzs
    have hlen : (0 : ℝ) < ((z :: zs).length : ℝ) := by
      simp only [List.length_cons]
      positivity
    rw [div_lt_iff hlen]
    simp only [List.sum_cons, List.length_cons]
    push_cast
    nlinarith

lemma mem_range_drop_one {n b : ℕ} (h : b ∈ (List.range n).drop 1) : 1 ≤ b ∧ b < n := by
  cases n with
  | zero => simp [List.range_zero] at h
  | succ m =>
    rw [List.range_succ_eq_map] at h
    simp only [List.drop_succ_cons, List.drop_zero] at h
    obtain ⟨k, hk, rfl⟩ := List.mem_map.mp h
    have := List.mem_range.mp hk
    omega

lemma digitize_mopBins_count (x L : ℝ) :
    digitize x (mopBins L) =
      ((List.range (Nat.ceil ((L + 0.5 - 0) / 0.5))).filter
        (fun (k : ℕ) => decide ((0 + 0.5 * (k : ℝ)) ≤ x))).length := by
  unfold digitize mopBins
  rw [List.filter_map, List.length_map]
  rfl

lemma mopBins_length (L : ℝ) :
    (mopBins L).length = Nat.ceil ((L + 0.5 - 0) / 0.5) := by
  unfold mopBins
  rw [List.length_map, List.length_range]

/-- A point in a non-final digitize bin lies strictly below that bin's upper
edge. -/
lemma digitize_lt_edge {x L : ℝ} {b : ℕ} (hx : digitize x (mopBins L) = b)
    (hb : b < (mopBins L).length) : x < 0.5 * b := by
  by_contra hcon
  push_neg at hcon
  rw [mopBins_length] at hb
  rw [digitize_mopBins_count] at hx
  have hall : ∀ k ∈ List.range (b + 1),
      (fun (k : ℕ) => decide ((0 + 0.5 * (k : ℝ)) ≤ x)) k = true := by
    intro k hk
    have hk' : (k : ℝ) ≤ b := by
      have := List.mem_range.mp hk
      exact_mod_cast Nat.lt_succ_iff.mp this
    simp only [decide_eq_true_eq]
    nlinarith
  have hsub : (List.range (b + 1)).filter (fun (k : ℕ) => decide ((0 + 0.5 * (k : ℝ)) ≤ x)) =
      List.range (b + 1) := List.filter_eq_self.mpr hall
  have hsl : ((List.range (b + 1)).filter
        (fun (k : ℕ) => decide ((0 + 0.5 * (k : ℝ)) ≤ x))).Sublist
      ((List.range (Nat.ceil ((L + 0.5 - 0) / 0.5))).filter
        (fun (k : ℕ) => decide ((0 + 0.5 * (k : ℝ)) ≤ x))) :=
    List.Sublist.filter _ (List.range_sublist.mpr hb)
  have := hsl.length_le
  rw [hsub, List.length_range, hx] at this
  omega

/-- A point in digitize bin `b ≥ 1` lies at or above that bin's lower edge. -/
lemma edge_le_digitize {y L : ℝ} {b : ℕ} (hy : digitize y (mopBins L) = b)
    (hb : 1 ≤ b) : 0.5 * ((b : ℝ) - 1) ≤ y := by
  by_contra hcon
  push_neg at hcon
  rw [digitize_mopBins_count] at hy
  set p : ℕ → Bool := fun (k : ℕ) => decide ((0 + 0.5 * (k : ℝ)) ≤ y) with hp
  set n := Nat.ceil ((L + 0.5 - 0) / 0.5) with hn
  have hsubset : (List.range n).filter p ⊆ List.range (b - 1) := by
    intro k hk
    have hmem := List.mem_filter.mp hk
    have hpk : (0 + 0.5 * (k : ℝ)) ≤ y := by
      have := hmem.2
      rw [hp] at this
      simpa using this
    have hklt : (k : ℝ) < (b : ℝ) - 1 := by nlinarith
    rw [List.mem_range]
    have : k < b - 1 ∨ b - 1 ≤ k := Nat.lt_or_ge k (b - 1)
    rcases this with h | h
    · exact h
    · exfalso
      have : ((b : ℝ) - 1) ≤ (k : ℝ) := by
        have hcast : ((b - 1 : ℕ) : ℝ) ≤ (k : ℝ) := by exact_mod_cast h
        rw [Nat.cast_sub hb] at hcast
        simpa using hcast
      linarith
  have hnodup : ((List.range n).filter p).Nodup :=
    (List.filter_sublist _).nodup (List.nodup_range n)
  have hlen := (List.subperm_of_subset hnodup hsubset).length_le
  rw [hy, List.length_range] at hlen
  omega

lemma digitize_mono {x y : ℝ} (bins : List ℝ) (h : x ≤ y) :
    digitize x bins ≤ digitize y bins := by
  unfold digitize
  exact (List.monotone_filter_right bins
    (fun a ha => by
      simp only [decide_eq_true_eq] at ha ⊢
      linarith)).length_le

/-- The per-bin raw mean distances of the MOP binning are strictly
increasing. -/
lemma mopGroups_mean_chain (sorted : List (ℝ × ℝ)) (L : ℝ) :
    List.Chain' (· < ·)
      ((mopGroups sorted (mopBins L)).map (fun g => (g.map Prod.fst).sum / (g.length : ℝ))) := by
  rw [List.chain'_map]
  unfold mopGroups
  refine List.Pairwise.chain' ?_
  rw [List.pairwise_filterMap]
  have hbase : ((List.range (mopBins L).length).drop 1).Pairwise (· < ·) :=
    List.Pairwise.sublist (List.drop_sublist _ _) (List.pairwise_lt_range _)
  have hmem : ∀ b ∈ (List.range (mopBins L).length).drop 1,
      1 ≤ b ∧ b < (mopBins L).length := by
    intro b hb
    exact mem_range_drop_one hb
  refine List.Pairwise.imp_of_mem ?_ hbase
  intro b1 b2 hb1 hb2 hlt g1 hg1 g2 hg2
  have hb1p := hmem b1 hb1
  have hb2p := hmem b2 hb2
  rw [Option.mem_def] at hg1 hg2
  dsimp only at hg1 hg2
  split_ifs at hg1 with he1
  split_ifs at hg2 with he2
  have hg1' := Option.some.inj hg1
  have hg2' := Option.some.inj hg2
  subst hg1' hg2'
  have hne1 : sorted.filter (fun p => decide (digitize p.1 (mopBins L) = b1)) ≠ [] := by
    intro hc
    rw [hc] at he1
    simp at he1
  have hne2 : sorted.filter (fun p => decide (digitize p.1 (mopBins L) = b2)) ≠ [] := by
    intro hc
    rw [hc] at he2
    simp at he2
  set g1 := sorted.filter (fun p => decide (digitize p.1 (mopBins L) = b1)) with hgd1
  set g2 := sorted.filter (fun p => decide (digitize p.1 (mopBins L) = b2)) with hgd2
  have hmap1 : (g1.map Prod.fst) ≠ [] := by
    intro hc
    exact hne1 (List.map_eq_nil.mp hc)
  have hmap2 : (g2.map Prod.fst) ≠ [] := by
    intro hc
    exact hne2 (List.map_eq_nil.mp hc)
  have hup : ∀ x ∈ g1.map Prod.fst, x < 0.5 * (b1 : ℝ) := by
    intro x hx
    obtain ⟨p, hp, rfl⟩ := List.mem_map.mp hx
    have hdig : digitize p.1 (mopBins L) = b1 := by
      have := (List.mem_filter.mp hp).2
      simpa using this
    exact digitize_lt_edge hdig hb1p.2
  have hlo : ∀ y ∈ g2.map Prod.fst, 0.5 * ((b2 : ℝ) - 1) ≤ y := by
    intro y hy
    obtain ⟨p, hp, rfl⟩ := List.mem_map.mp hy
    have hdig : digitize p.1 (mopBins L) = b2 := by
      have := (List.mem_filter.mp hp).2
      simpa using this
    exact edge_le_digitize hdig hb2p.1
  have hm1 : (g1.map Prod.fst).sum / ((g1.map Prod.fst).length : ℝ) < 0.5 * (b1 : ℝ) :=
    list_mean_lt hmap1 hup
  have hm2 : 0.5 * ((b2 : ℝ) - 1) ≤ (g2.map Prod.fst).sum / ((g2.map Prod.fst).length : ℝ) :=
    le_list_mean hmap2 hlo
  rw [List.length_map] at hm1 hm2
  have hsep : 0.5 * (b1 : ℝ) ≤ 0.5 * ((b2 : ℝ) - 1) := by
    have hble : b1 + 1 ≤ b2 := hlt
    have : (b1 : ℝ) + 1 ≤ (b2 : ℝ) := by exact_mod_cast hble
    nlinarith
  linarith

lemma mergeSort_sorted_records (l : List ProjRecord) :
    (l.mergeSort (fun a b => decide (a.distance ≤ b.distance))).Pairwise
      (fun a b => a.distance ≤ b.distance) := by
  have h := @List.sorted_mergeSort ProjRecord
    (fun a b : ProjRecord => decide (a.distance ≤ b.distance))
    (fun a b c hab hbc => by
      simp only [decide_eq_true_eq] at hab hbc ⊢
      exact le_trans hab hbc)
    (fun a b => by
      simp only [Bool.or_eq_true, decide_eq_true_eq]
      exact le_total a.distance b.distance)
    l
  exact h.imp (fun hab => by simpa using hab)

/-- Every per-date record distance in the transect pipeline is an exact
multiple of 0.01, because it was produced by `round(dist_along, 2)`. -/
lemma pointsForDate_int (coords : List (ℝ × ℝ)) (cands : List GeoPoint) (date : String) :
    ∀ q ∈ pointsForDate (acceptedRecords coords cands) date,
      ∃ m : ℤ, q.distance = (m : ℝ) / 10 ^ 2 := by
  intro q hq
  unfold pointsForDate at hq
  obtain ⟨r, hr, rfl⟩ := List.mem_map.mp hq
  have hmem := (List.mem_filter.mp hr).1
  unfold acceptedRecords at hmem
  obtain ⟨p, hp, hsome⟩ := List.mem_filterMap.mp hmem
  obtain ⟨v, hv, hrec⟩ := Option.map_eq_some'.mp hsome
  subst hrec
  exact roundN_exists_int 2 v.2

/-- Invariants of an emitted transect per-date profile (given the
multiple-of-0.01 property of the input distances). -/
lemma dateProfile_spec (recs : List (String × ProjRecord)) (date : String)
    (prof : DateProfile) (h : dateProfile recs date = some prof)
    (hint : ∀ q ∈ pointsForDate recs date, ∃ m : ℤ, q.distance = (m : ℝ) / 10 ^ 2) :
    prof.distances.length = prof.elevations.length ∧ 5 ≤ prof.distances.length ∧
    List.Chain' (· < ·) prof.distances := by
  unfold dateProfile at h
  dsimp only at h
  split_ifs at h with h5
  have hprof := Option.some.inj h
  subst hprof
  refine ⟨by simp, by simpa using h5, ?_⟩
  apply dedup_distances_chain
  · exact mergeSort_sorted_records _
  · intro q hq
    exact hint q (List.mem_mergeSort.mp hq)

/-- A date group with fewer than 5 bins is discarded by the transect
pipeline. -/
lemma dateProfile_discard (recs : List (String × ProjRecord)) (date : String)
    (h : (deduplicated ((pointsForDate recs date).mergeSort
      (fun a b => decide (a.distance ≤ b.distance)))).length < 5) :
    dateProfile recs date = none := by
  unfold dateProfile
  dsimp only
  rw [if_neg]
  omega

/-- Invariants of an emitted MOP per-date profile. -/
lemma mopProfile_spec (L : ℝ) (dps : List (ℝ × ℝ)) (prof : MopProfile)
    (h : mopProfile L dps = some prof) :
    prof.distances.length = prof.elevations.length ∧ 5 ≤ prof.distances.length ∧
    (∃ bd : List ℝ, prof.distances = bd.map (roundN 2) ∧ List.Chain' (· < ·) bd) ∧
    List.Chain' (· ≤ ·) prof.distances := by
  unfold mopProfile at h
  dsimp only at h
  split_ifs at h with h5 hbd
  have hprof := Option.some.inj h
  subst hprof
  refine ⟨by simp, by simpa using hbd, ?_, ?_⟩
  · refine ⟨_, rfl, ?_⟩
    exact mopGroups_mean_chain _ L
  · have hchain := mopGroups_mean_chain
      (dps.mergeSort (fun a b => decide (a.1 ≤ b.1))) L
    dsimp only
    rw [List.map_map, List.chain'_map]
    rw [List.chain'_map] at hchain
    exact hchain.imp (fun a b hab => roundN_mono 2 (le_of_lt hab))

/-- Structure of an emitted MOP record. -/
lemma compute_mop_spec (mop : MopLine) (pbd : List (String × List (ℝ × ℝ × ℝ)))
    (r : MopRecord) (h : compute_mop_timeseries mop pbd = some r) :
    r.num_dates = r.profiles.length ∧ 1 ≤ r.num_dates ∧
    ∀ d : String, ∀ prof : MopProfile, (d, prof) ∈ r.profiles →
      ∃ dps : List (ℝ × ℝ),
        mopProfile (norm2 ((mop.endp.1 - mop.start.1) * LON_TO_M)
          ((mop.endp.2 - mop.start.2) * LAT_TO_M)) dps = some prof := by
  unfold compute_mop_timeseries at h
  dsimp only at h
  split_ifs at h with hlen hnum
  have hr := Option.some.inj h
  subst hr
  refine ⟨rfl, by simpa using Nat.not_lt.mp hnum, ?_⟩
  intro d prof hmem
  obtain ⟨dp, hdp, hsome⟩ := List.mem_filterMap.mp hmem
  obtain ⟨v, hv, hrec⟩ := Option.map_eq_some'.mp hsome
  have hd : v = prof := congrArg Prod.snd hrec
  subst hd
  exact ⟨_, hv⟩

/-- C3 (amended): every emitted transect profile satisfies
`len(distances) == len(elevations)`, has at least 5 bins, and its distances
are strictly increasing (after rounding); any date group reducing to fewer
than 5 bins is discarded.  Every emitted MOP profile satisfies the same
length and minimum-bin invariants and its unrounded bin means are strictly
increasing, but after the final rounding to 2 decimals its distances are
only nondecreasing (adjacent bins can round to equal values). -/
theorem C3_profile_invariants :
    (∀ (coords : List (ℝ × ℝ)) (cands : List GeoPoint) (date : String)
      (prof : DateProfile),
      dateProfile (acceptedRecords coords cands) date = some prof →
      prof.distances.length = prof.elevations.length ∧ 5 ≤ prof.distances.length ∧
      List.Chain' (· < ·) prof.distances) ∧
    (∀ (recs : List (String × ProjRecord)) (date : String),
      (deduplicated ((pointsForDate recs date).mergeSort
        (fun a b => decide (a.distance ≤ b.distance)))).length < 5 →
      dateProfile recs date = none) ∧
    (∀ (mop : MopLine) (pbd : List (String × List (ℝ × ℝ × ℝ))) (r : MopRecord),
      compute_mop_timeseries mop pbd = some r →
      ∀ d : String, ∀ prof : MopProfile, (d, prof) ∈ r.profiles →
        prof.distances.length = prof.elevations.length ∧ 5 ≤ prof.distances.length ∧
        (∃ bd : List ℝ, prof.distances = bd.map (roundN 2) ∧ List.Chain' (· < ·) bd) ∧
        List.Chain' (· ≤ ·) prof.distances) := by
  refine ⟨?_, dateProfile_discard, ?_⟩
  · intro coords cands date prof h
    exact dateProfile_spec _ _ _ h (pointsForDate_int coords cands date)
  · intro mop pbd r h d prof hmem
    obtain ⟨_, _, hall⟩ := compute_mop_spec mop pbd r h
    obtain ⟨dps, hdps⟩ := hall d prof hmem
    exact mopProfile_spec _ _ _ hdps

/-- C4: every transect record satisfies `num_dates == len(timeseries)`;
records in the emitted collection additionally have `num_dates ≥ 2`, so a
transect whose accepted points span at most one distinct survey date never
appears in it; the MOP variant emits records with `num_dates ≥ 1`. -/
theorem C4_date_coverage :
    (∀ (f : TransectFeature) (idx : ℤ × ℤ → List GeoPoint) (cs : ℝ),
      (compute_transect_timeseries f idx cs).num_dates =
        (compute_transect_timeseries f idx cs).timeseries.length) ∧
    (∀ (feats : List TransectFeature) (idx : ℤ × ℤ → List GeoPoint) (cs : ℝ),
      ∀ r ∈ emittedRecords feats idx cs,
        2 ≤ r.num_dates ∧ r.num_dates = r.timeseries.length) ∧
    (∀ (f : TransectFeature) (idx : ℤ × ℤ → List GeoPoint) (cs : ℝ)
      (feats : List TransectFeature),
      (datesInOrder (acceptedRecords f.coords (gatherCandidates f.coords idx cs))).length ≤ 1 →
      compute_transect_timeseries f idx cs ∉ emittedRecords feats idx cs) ∧
    (∀ (mop : MopLine) (pbd : List (String × List (ℝ × ℝ × ℝ))) (r : MopRecord),
      compute_mop_timeseries mop pbd = some r →
      r.num_dates = r.profiles.length ∧ 1 ≤ r.num_dates) := by
  refine ⟨fun f idx cs => rfl, ?_, ?_, ?_⟩
  · intro feats idx cs r hr
    unfold emittedRecords at hr
    have hfil := List.mem_filter.mp hr
    have h2 : 1 < r.num_dates := by simpa using hfil.2
    obtain ⟨f, hf, rfl⟩ := List.mem_map.mp hfil.1
    exact ⟨h2, rfl⟩
  · intro f idx cs feats hdates hmem
    unfold emittedRecords at hmem
    have hfil := List.mem_filter.mp hmem
    have h2 : 1 < (compute_transect_timeseries f idx cs).num_dates := by
      simpa using hfil.2
    have hle : (compute_transect_timeseries f idx cs).num_dates ≤ 1 := by
      show (transectTimeseries
        (acceptedRecords f.coords (gatherCandidates f.coords idx cs))).length ≤ 1
      unfold transectTimeseries
      exact le_trans (List.length_filterMap_le _ _) hdates
    omega
  · intro mop pbd r h
    obtain ⟨h1, h2, _⟩ := compute_mop_spec mop pbd r h
    exact ⟨h1, h2⟩

/-- C6 (amended): each transect bin is the rounded mean of its group's
already-rounded per-point values — each accepted record carries
`round(dist_along, 2)` and `round(height, 3)`, and the bin re-rounds the
means of those rounded values; only the MOP pipeline averages raw
along-distances and raw elevations before rounding. -/
theorem C6_bin_means :
    (∀ (recs : List (String × ProjRecord)) (date : String) (prof : DateProfile),
      dateProfile recs date = some prof →
      prof.distances = (chunksBy ((pointsForDate recs date).mergeSort
          (fun a b => decide (a.distance ≤ b.distance)))).map (fun c =>
        roundN 2 (((c.1 :: c.2).map (fun q => q.distance)).sum / ((c.1 :: c.2).length : ℝ))) ∧
      prof.elevations = (chunksBy ((pointsForDate recs date).mergeSort
          (fun a b => decide (a.distance ≤ b.distance)))).map (fun c =>
        roundN 3 (((c.1 :: c.2).map (fun q => q.elevation)).sum / ((c.1 :: c.2).length : ℝ)))) ∧
    (∀ (coords : List (ℝ × ℝ)) (cands : List GeoPoint),
      ∀ dr ∈ acceptedRecords coords cands,
        ∃ p ∈ cands, ∃ pd da : ℝ,
          project_point_onto_transect p.lon p.lat coords = some (pd, da) ∧
          dr.2.distance = roundN 2 da ∧ dr.2.elevation = roundN 3 p.height) ∧
    (∀ (L : ℝ) (dps : List (ℝ × ℝ)) (prof : MopProfile),
      mopProfile L dps = some prof →
      prof.distances = (mopGroups (dps.mergeSort (fun a b => decide (a.1 ≤ b.1)))
          (mopBins L)).map (fun g => roundN 2 ((g.map Prod.fst).sum / (g.length : ℝ))) ∧
      prof.elevations = (mopGroups (dps.mergeSort (fun a b => decide (a.1 ≤ b.1)))
          (mopBins L)).map (fun g => roundN 3 ((g.map Prod.snd).sum / (g.length : ℝ)))) := by
  refine ⟨?_, ?_, ?_⟩
  · intro recs date prof h
    unfold dateProfile at h
    dsimp only at h
    split_ifs at h with h5
    have hprof := Option.some.inj h
    subst hprof
    constructor
    · show (deduplicated _).map _ = _
      rw [deduplicated_eq_chunks, List.map_map]
      rfl
    · show (deduplicated _).map _ = _
      rw [deduplicated_eq_chunks, List.map_map]
      rfl
  · intro coords cands dr hdr
    unfold acceptedRecords at hdr
    obtain ⟨p, hp, hsome⟩ := List.mem_filterMap.mp hdr
    obtain ⟨v, hv, hrec⟩ := Option.map_eq_some'.mp hsome
    subst hrec
    exact ⟨p, hp, v.1, v.2, by simpa using hv, rfl, rfl⟩
  · intro L dps prof h
    unfold mopProfile at h
    dsimp only at h
    split_ifs at h with h5 hbd
    have hprof := Option.some.inj h
    subst hprof
    constructor
    · show (List.map _ _).map _ = _
      rw [List.map_map]
      rfl
    · show (List.map _ _).map _ = _
      rw [List.map_map]
      rfl

/-- The spatial index as a filter: each cell holds exactly the points keyed
to it, in input order. -/
lemma build_spatial_index_eq_filter (pts : List GeoPoint) (cell_size : ℝ) (c : ℤ × ℤ) :
    build_spatial_index pts cell_size c =
      pts.filter (fun p => decide (cellKey p.lon p.lat cell_size = c)) := by
  unfold build_spatial_index
  suffices h : ∀ (l : List GeoPoint) (f : ℤ × ℤ → List GeoPoint),
      (l.foldl (fun index p => fun c' =>
        if c' = cellKey p.lon p.lat cell_size then index c' ++ [p] else index c') f) c =
      f c ++ l.filter (fun p => decide (cellKey p.lon p.lat cell_size = c)) by
    simpa using h pts (fun _ => [])
  intro l
  induction l with
  | nil => intro f; simp
  | cons p rest ih =>
    intro f
    rw [List.foldl_cons, ih]
    by_cases hc : cellKey p.lon p.lat cell_size = c
    · rw [List.filter_cons_of_pos (by simpa using hc)]
      rw [if_pos hc.symm]
      simp
    · rw [List.filter_cons_of_neg (by simpa using hc)]
      rw [if_neg (fun hcc => hc hcc.symm)]

lemma mem_build_spatial_index (pts : List GeoPoint) (cell_size : ℝ) (c : ℤ × ℤ)
    (x : GeoPoint) :
    x ∈ build_spatial_index pts cell_size c ↔
      x ∈ pts ∧ cellKey x.lon x.lat cell_size = c := by
  rw [build_spatial_index_eq_filter, List.mem_filter]
  simp

lemma mem_get_nearby_cells (lon lat cell_size : ℝ) (c : ℤ × ℤ) :
    c ∈ get_nearby_cells lon lat cell_size 1 ↔
      |c.1 - intTrunc (lon / cell_size)| ≤ 1 ∧ |c.2 - intTrunc (lat / cell_size)| ≤ 1 := by
  unfold get_nearby_cells
  dsimp only
  rw [List.mem_flatMap]
  constructor
  · rintro ⟨dx, hdx, hc⟩
    obtain ⟨dy, hdy, rfl⟩ := List.mem_map.mp hc
    have hdx' := List.mem_range.mp hdx
    have hdy' := List.mem_range.mp hdy
    constructor <;> simp only [add_sub_cancel_left] <;> rw [abs_le] <;> omega
  · rintro ⟨h1, h2⟩
    rw [abs_le] at h1 h2
    refine ⟨(c.1 - intTrunc (lon / cell_size) + 1).toNat, ?_, ?_⟩
    · rw [List.mem_range]; omega
    · rw [List.mem_map]
      refine ⟨(c.2 - intTrunc (lat / cell_size) + 1).toNat, ?_, ?_⟩
      · rw [List.mem_range]; omega
      · have hx : ((c.1 - intTrunc (lon / cell_size) + 1).toNat : ℤ) =
            c.1 - intTrunc (lon / cell_size) + 1 := by omega
        have hy : ((c.2 - intTrunc (lat / cell_size) + 1).toNat : ℤ) =
            c.2 - intTrunc (lat / cell_size) + 1 := by omega
        rw [Prod.ext_iff]
        constructor <;> simp only [hx, hy] <;> push_cast <;> omega

lemma intTrunc_of_nonneg {x : ℝ} (h : 0 ≤ x) : intTrunc x = ⌊x⌋ := by
  unfold intTrunc
  rw [if_neg (not_lt.mpr h)]

/-- C7 (amended): `build_spatial_index` places every point into the cell
keyed by `(int(lon/cellSize), int(lat/cellSize))` where `int` truncates
toward zero (this equals `floor` only for nonnegative ratios), and the
neighborhood query collects exactly the points of the 3x3 block of cells
centered on the truncated cell of the query coordinate. -/
theorem C7_spatial_index (pts : List GeoPoint) (cell_size : ℝ) :
    (∀ (c : ℤ × ℤ) (x : GeoPoint),
      x ∈ build_spatial_index pts cell_size c ↔
        x ∈ pts ∧ c = (intTrunc (x.lon / cell_size), intTrunc (x.lat / cell_size))) ∧
    (∀ (lon lat : ℝ) (x : GeoPoint),
      (∃ c ∈ get_nearby_cells lon lat cell_size 1, x ∈ build_spatial_index pts cell_size c) ↔
        x ∈ pts ∧
        |intTrunc (x.lon / cell_size) - intTrunc (lon / cell_size)| ≤ 1 ∧
        |intTrunc (x.lat / cell_size) - intTrunc (lat / cell_size)| ≤ 1) ∧
    (∀ x : ℝ, 0 ≤ x → intTrunc x = ⌊x⌋) := by
  refine ⟨?_, ?_, fun x hx => intTrunc_of_nonneg hx⟩
  · intro c x
    rw [mem_build_spatial_index]
    unfold cellKey
    constructor
    · rintro ⟨h1, h2⟩; exact ⟨h1, h2.symm⟩
    · rintro ⟨h1, h2⟩; exact ⟨h1, h2.symm⟩
  · intro lon lat x
    constructor
    · rintro ⟨c, hc, hx⟩
      obtain ⟨c1, c2⟩ := c
      obtain ⟨hxp, hkey⟩ := (mem_build_spatial_index pts cell_size (c1, c2) x).mp hx
      have hb := (mem_get_nearby_cells lon lat cell_size (c1, c2)).mp hc
      unfold cellKey at hkey
      rw [Prod.mk.injEq] at hkey
      refine ⟨hxp, ?_, ?_⟩
      · rw [hkey.1]
        exact hb.1
      · rw [hkey.2]
        exact hb.2
    · rintro ⟨hxp, h1, h2⟩
      refine ⟨cellKey x.lon x.lat cell_size, ?_, ?_⟩
      · rw [mem_get_nearby_cells]
        exact ⟨h1, h2⟩
      · rw [mem_build_spatial_index]
        exact ⟨hxp, rfl⟩

/-- C7 counterexample: a point with negative longitude whose ratio is `-0.5`
is stored in cell `0` (truncation toward zero), not in the floor cell `-1`
stated by the claim. -/
theorem C7_counterexample :
    build_spatial_index [⟨-0.00005, 0.00015, 0, "fix", "2024-01-01"⟩] 0.0001 (0, 1) =
      [⟨-0.00005, 0.00015, 0, "fix", "2024-01-01"⟩] ∧
    build_spatial_index [⟨-0.00005, 0.00015, 0, "fix", "2024-01-01"⟩] 0.0001
      (⌊(-0.00005 : ℝ) / 0.0001⌋, ⌊(0.00015 : ℝ) / 0.0001⌋) = [] ∧
    ⌊(-0.00005 : ℝ) / 0.0001⌋ = -1 := by
  have hx : (-0.00005 : ℝ) / 0.0001 = -0.5 := by norm_num
  have hy : (0.00015 : ℝ) / 0.0001 = 1.5 := by norm_num
  have hfx : ⌊(-0.00005 : ℝ) / 0.0001⌋ = -1 := by
    rw [hx]
    rw [Int.floor_eq_iff]
    norm_num
  have hfy : ⌊(0.00015 : ℝ) / 0.0001⌋ = 1 := by
    rw [hy]
    rw [Int.floor_eq_iff]
    norm_num
  have hkey : cellKey (-0.00005) 0.00015 0.0001 = (0, 1) := by
    unfold cellKey intTrunc
    rw [hx, hy]
    rw [if_pos (by norm_num : (-0.5 : ℝ) < 0), if_neg (by norm_num : ¬ (1.5 : ℝ) < 0)]
    have h05 : ⌊(0.5 : ℝ)⌋ = 0 := by
      rw [Int.floor_eq_iff]
      norm_num
    have h15 : ⌊(1.5 : ℝ)⌋ = 1 := by
      rw [Int.floor_eq_iff]
      norm_num
    rw [show -(-0.5 : ℝ) = 0.5 by norm_num, h05, h15]
    norm_num
  refine ⟨?_, ?_, hfx⟩
  · rw [build_spatial_index_eq_filter]
    rw [List.filter_cons_of_pos (by simp [hkey])]
    rfl
  · rw [build_spatial_index_eq_filter]
    rw [hfx, hfy]
    rw [List.filter_cons_of_neg (by simp [hkey])]
    rfl

lemma point_to_segment_distance_degenerate (px py x1 y1 x2 y2 : ℝ)
    (h : ((x2 - x1) * lon_to_m) ^ 2 + ((y2 - y1) * lat_to_m) ^ 2 < 1e-10) :
    point_to_segment_distance px py x1 y1 x2 y2 =
      (Real.sqrt (((px - x1) * lon_to_m) ^ 2 + ((py - y1) * lat_to_m) ^ 2), 0, 0) := by
  unfold point_to_segment_distance
  dsimp only
  rw [if_pos h]
  norm_num

lemma segDist_degenerate (px py : ℝ) (s : (ℝ × ℝ) × (ℝ × ℝ))
    (h : seg_len_sq s.1 s.2 < 1e-10) :
    segDist px py s =
      Real.sqrt (((px - s.1.1) * lon_to_m) ^ 2 + ((py - s.1.2) * lat_to_m) ^ 2) := by
  unfold seg_len_sq at h
  unfold segDist
  rw [point_to_segment_distance_degenerate px py s.1.1 s.1.2 s.2.1 s.2.2 h]

lemma project_short (px py : ℝ) (coords : List (ℝ × ℝ)) (h : coords.length < 2) :
    project_point_onto_transect px py coords = none := by
  cases coords with
  | nil => simp [project_point_onto_transect, projectLoop]
  | cons a t =>
    cases t with
    | nil => simp [project_point_onto_transect, projectLoop]
    | cons b t2 =>
      exfalso
      simp only [List.length_cons] at h
      omega

lemma project_none_iff (px py : ℝ) (coords : List (ℝ × ℝ)) (h : 2 ≤ coords.length) :
    project_point_onto_transect px py coords = none ↔
      ∀ s ∈ segPairs coords, 1 < segDist px py s := by
  obtain ⟨i, hfirst, hmin, hloop⟩ := project_loop_final px py coords h
  have hproj : project_point_onto_transect px py coords =
      if segDist px py ((segPairs coords).get i) ≤ 1 then
        some (segDist px py ((segPairs coords).get i),
          (((segPairs coords).take i).map segHav).sum +
            (point_to_segment_distance px py ((segPairs coords).get i).1.1
              ((segPairs coords).get i).1.2 ((segPairs coords).get i).2.1
              ((segPairs coords).get i).2.2).2.2)
      else none := by
    unfold project_point_onto_transect
    rw [hloop]
    norm_num
  by_cases hD : segDist px py ((segPairs coords).get i) ≤ 1
  · rw [hproj, if_pos hD]
    constructor
    · intro hc; exact absurd hc (by simp)
    · intro hall
      have := hall _ (List.get_mem (segPairs coords) i.1 i.2)
      exact absurd hD (not_le.mpr this)
  · rw [hproj, if_neg hD]
    constructor
    · intro _ s hs
      obtain ⟨j, hj⟩ := List.mem_iff_get.mp hs
      have := hmin j
      rw [hj] at this
      exact lt_of_lt_of_le (not_le.mp hD) this
    · intro _; rfl

lemma acceptedRecords_eq_nil (coords : List (ℝ × ℝ)) (cands : List GeoPoint)
    (h : ∀ p ∈ cands, project_point_onto_transect p.lon p.lat coords = none) :
    acceptedRecords coords cands = [] := by
  unfold acceptedRecords
  rw [List.filterMap_eq_nil]
  intro p hp
  rw [h p hp]
  rfl

/-- C9 (amended): a degenerate segment falls back to the Euclidean distance
to its start with `t = 0` and zero along-segment distance; a line with fewer
than 2 vertices accepts nothing; an all-degenerate line accepts a point iff
the fallback point distance to some segment start is within 1 m (so such a
line CAN still accept points); and a line whose candidates are all rejected
contributes an empty timeseries and is absent from the emitted collection
rather than an error. -/
theorem C9_degenerate_handling :
    (∀ px py x1 y1 x2 y2 : ℝ,
      ((x2 - x1) * lon_to_m) ^ 2 + ((y2 - y1) * lat_to_m) ^ 2 < 1e-10 →
      point_to_segment_distance px py x1 y1 x2 y2 =
        (Real.sqrt (((px - x1) * lon_to_m) ^ 2 + ((py - y1) * lat_to_m) ^ 2), 0, 0)) ∧
    (∀ (px py : ℝ) (coords : List (ℝ × ℝ)), coords.length < 2 →
      project_point_onto_transect px py coords = none) ∧
    (∀ (px py : ℝ) (coords : List (ℝ × ℝ)), 2 ≤ coords.length →
      (∀ s ∈ segPairs coords, seg_len_sq s.1 s.2 < 1e-10) →
      (project_point_onto_transect px py coords = none ↔
        ∀ s ∈ segPairs coords,
          1 < Real.sqrt (((px - s.1.1) * lon_to_m) ^ 2 + ((py - s.1.2) * lat_to_m) ^ 2))) ∧
    (∀ (f : TransectFeature) (idx : ℤ × ℤ → List GeoPoint) (cs : ℝ)
      (feats : List TransectFeature),
      (∀ p ∈ gatherCandidates f.coords idx cs,
        project_point_onto_transect p.lon p.lat f.coords = none) →
      (compute_transect_timeseries f idx cs).timeseries = [] ∧
      compute_transect_timeseries f idx cs ∉ emittedRecords feats idx cs) := by
  refine ⟨point_to_segment_distance_degenerate, project_short, ?_, ?_⟩
  · intro px py coords h2 hdeg
    rw [project_none_iff px py coords h2]
    constructor
    · intro hall s hs
      have := hall s hs
      rw [segDist_degenerate px py s (hdeg s hs)] at this
      exact this
    · intro hall s hs
      rw [segDist_degenerate px py s (hdeg s hs)]
      exact hall s hs
  · intro f idx cs feats hrej
    have hnil : acceptedRecords f.coords (gatherCandidates f.coords idx cs) = [] :=
      acceptedRecords_eq_nil _ _ hrej
    have hts : (compute_transect_timeseries f idx cs).timeseries = [] := by
      show transectTimeseries _ = []
      rw [hnil]
      rfl
    refine ⟨hts, ?_⟩
    intro hmem
    unfold emittedRecords at hmem
    have hfil := (List.mem_filter.mp hmem).2
    have : 1 < (compute_transect_timeseries f idx cs).num_dates := by simpa using hfil
    have hzero : (compute_transect_timeseries f idx cs).num_dates = 0 := by
      show (transectTimeseries _).length = 0
      rw [hnil]
      rfl
    omega

/-- C9 counterexample: the two-vertex line whose single segment is
degenerate still accepts the point at its location — an all-degenerate line
does not always yield "no accepted points". -/
theorem C9_counterexample :
    project_point_onto_transect 0 0 [((0 : ℝ), (0 : ℝ)), (0, 0)] = some (0, 0) ∧
    seg_len_sq ((0 : ℝ), (0 : ℝ)) ((0 : ℝ), (0 : ℝ)) < 1e-10 := by
  constructor
  · have hd : point_to_segment_distance 0 0 0 0 0 0 = (0, 0, 0) := by
      rw [point_to_segment_distance_degenerate 0 0 0 0 0 0 (by norm_num)]
      norm_num
    unfold project_point_onto_transect projectLoop
    rw [hd]
    norm_num [projectLoop]
  · unfold seg_len_sq
    norm_num

/-- One step of the candidate-gathering cell loop (lines 163-166). -/
def gatherStep (idx : ℤ × ℤ → List GeoPoint)
    (acc : List GeoPoint × List (ℤ × ℤ)) (cell : ℤ × ℤ) :
    List GeoPoint × List (ℤ × ℤ) :=
  if cell ∈ acc.2 then acc else (acc.1 ++ idx cell, acc.2 ++ [cell])

/-- One vertex of the candidate-gathering loop (lines 160-166). -/
def gatherOuter (idx : ℤ × ℤ → List GeoPoint) (cell_size : ℝ)
    (acc : List GeoPoint × List (ℤ × ℤ)) (coord : ℝ × ℝ) :
    List GeoPoint × List (ℤ × ℤ) :=
  (get_nearby_cells coord.1 coord.2 cell_size 1).foldl (gatherStep idx) acc

lemma gatherCandidates_eq (coords : List (ℝ × ℝ)) (idx : ℤ × ℤ → List GeoPoint)
    (cell_size : ℝ) :
    gatherCandidates coords idx cell_size =
      (coords.foldl (gatherOuter idx cell_size) ([], [])).1 := rfl

lemma innerG1 (idx : ℤ × ℤ → List GeoPoint) :
    ∀ (cells : List (ℤ × ℤ)) (acc : List GeoPoint × List (ℤ × ℤ)) (x : GeoPoint),
      x ∈ (cells.foldl (gatherStep idx) acc).1 →
      x ∈ acc.1 ∨ ∃ c ∈ cells, x ∈ idx c := by
  intro cells
  induction cells with
  | nil => intro acc x h; exact Or.inl h
  | cons c0 rest ih =>
    intro acc x h
    rw [List.foldl_cons] at h
    rcases ih _ x h with hmem | ⟨c, hc, hx⟩
    · unfold gatherStep at hmem
      split_ifs at hmem with hch
      · exact Or.inl hmem
      · rcases List.mem_append.mp hmem with h1 | h2
        · exact Or.inl h1
        · exact Or.inr ⟨c0, by simp, h2⟩
    · exact Or.inr ⟨c, by simp [hc], hx⟩

lemma innerChecked_mono (idx : ℤ × ℤ → List GeoPoint) :
    ∀ (cells : List (ℤ × ℤ)) (acc : List GeoPoint × List (ℤ × ℤ)) (c' : ℤ × ℤ),
      c' ∈ acc.2 → c' ∈ (cells.foldl (gatherStep idx) acc).2 := by
  intro cells
  induction cells with
  | nil => intro acc c' h; exact h
  | cons c0 rest ih =>
    intro acc c' h
    rw [List.foldl_cons]
    apply ih
    unfold gatherStep
    split_ifs with hch
    · exact h
    · simp [h]

lemma innerChecked_cells (idx : ℤ × ℤ → List GeoPoint) :
    ∀ (cells : List (ℤ × ℤ)) (acc : List GeoPoint × List (ℤ × ℤ)) (c : ℤ × ℤ),
      c ∈ cells → c ∈ (cells.foldl (gatherStep idx) acc).2 := by
  intro cells
  induction cells with
  | nil => intro acc c h; simp at h
  | cons c0 rest ih =>
    intro acc c h
    rw [List.foldl_cons]
    rcases List.mem_cons.mp h with rfl | h
    · apply innerChecked_mono
      unfold gatherStep
      split_ifs with hch
      · exact hch
      · simp
    · exact ih _ c h

lemma innerInv (idx : ℤ × ℤ → List GeoPoint) :
    ∀ (cells : List (ℤ × ℤ)) (acc : List GeoPoint × List (ℤ × ℤ)),
      (∀ c ∈ acc.2, ∀ x ∈ idx c, x ∈ acc.1) →
      ∀ c ∈ (cells.foldl (gatherStep idx) acc).2, ∀ x ∈ idx c,
        x ∈ (cells.foldl (gatherStep idx) acc).1 := by
  intro cells
  induction cells with
  | nil => intro acc hinv; exact hinv
  | cons c0 rest ih =>
    intro acc hinv
    rw [List.foldl_cons]
    apply ih
    unfold gatherStep
    split_ifs with hch
    · exact hinv
    · intro c hc x hx
      rcases List.mem_append.mp hc with h1 | h2
      · exact List.mem_append.mpr (Or.inl (hinv c h1 x hx))
      · have : c = c0 := by simpa using h2
        subst this
        exact List.mem_append.mpr (Or.inr hx)

lemma outerG1 (idx : ℤ × ℤ → List GeoPoint) (cell_size : ℝ) :
    ∀ (coords : List (ℝ × ℝ)) (acc : List GeoPoint × List (ℤ × ℤ)) (x : GeoPoint),
      x ∈ (coords.foldl (gatherOuter idx cell_size) acc).1 →
      x ∈ acc.1 ∨ ∃ v ∈ coords, ∃ c ∈ get_nearby_cells v.1 v.2 cell_size 1, x ∈ idx c := by
  intro coords
  induction coords with
  | nil => intro acc x h; exact Or.inl h
  | cons v0 rest ih =>
    intro acc x h
    rw [List.foldl_cons] at h
    rcases ih _ x h with hmem | ⟨v, hv, c, hc, hx⟩
    · rcases innerG1 idx _ acc x hmem with h1 | ⟨c, hc, hx⟩
      · exact Or.inl h1
      · exact Or.inr ⟨v0, by simp, c, hc, hx⟩
    · exact Or.inr ⟨v, by simp [hv], c, hc, hx⟩

lemma outerChecked_mono (idx : ℤ × ℤ → List GeoPoint) (cell_size : ℝ) :
    ∀ (coords : List (ℝ × ℝ)) (acc : List GeoPoint × List (ℤ × ℤ)) (c' : ℤ × ℤ),
      c' ∈ acc.2 → c' ∈ (coords.foldl (gatherOuter idx cell_size) acc).2 := by
  intro coords
  induction coords with
  | nil => intro acc c' h; exact h
  | cons v0 rest ih =>
    intro acc c' h
    rw [List.foldl_cons]
    exact ih _ c' (innerChecked_mono idx _ acc c' h)

lemma outerInv (idx : ℤ × ℤ → List GeoPoint) (cell_size : ℝ) :
    ∀ (coords : List (ℝ × ℝ)) (acc : List GeoPoint × List (ℤ × ℤ)),
      (∀ c ∈ acc.2, ∀ x ∈ idx c, x ∈ acc.1) →
      ∀ c ∈ (coords.foldl (gatherOuter idx cell_size) acc).2, ∀ x ∈ idx c,
        x ∈ (coords.foldl (gatherOuter idx cell_size) acc).1 := by
  intro coords
  induction coords with
  | nil => intro acc hinv; exact hinv
  | cons v0 rest ih =>
    intro acc hinv
    rw [List.foldl_cons]
    exact ih _ (innerInv idx _ acc hinv)

lemma gather_complete (idx : ℤ × ℤ → List GeoPoint) (cell_size : ℝ)
    (coords : List (ℝ × ℝ)) (v : ℝ × ℝ) (c : ℤ × ℤ) (x : GeoPoint)
    (hv : v ∈ coords) (hc : c ∈ get_nearby_cells v.1 v.2 cell_size 1)
    (hx : x ∈ idx c) :
    x ∈ (coords.foldl (gatherOuter idx cell_size) ([], [])).1 := by
  obtain ⟨s, t, rfl⟩ := List.append_of_mem hv
  rw [List.foldl_append, List.foldl_cons]
  set acc0 := s.foldl (gatherOuter idx cell_size) ([], []) with hacc0
  have hinv0 : ∀ c' ∈ acc0.2, ∀ y ∈ idx c', y ∈ acc0.1 := by
    rw [hacc0]
    apply outerInv
    simp
  have hinv1 : ∀ c' ∈ (gatherOuter idx cell_size acc0 v).2, ∀ y ∈ idx c',
      y ∈ (gatherOuter idx cell_size acc0 v).1 :=
    innerInv idx _ acc0 hinv0
  have hcin : c ∈ (gatherOuter idx cell_size acc0 v).2 :=
    innerChecked_cells idx _ acc0 c hc
  have hfinalinv := outerInv idx cell_size t (gatherOuter idx cell_size acc0 v) hinv1
  have hcfin : c ∈ (t.foldl (gatherOuter idx cell_size) (gatherOuter idx cell_size acc0 v)).2 :=
    outerChecked_mono idx cell_size t _ c hcin
  exact hfinalinv c hcfin x hx

/-- Membership in the gathered candidate list: a point is gathered iff it
lies in the index at a cell in the 3x3 neighborhood of some vertex. -/
lemma mem_gatherCandidates (coords : List (ℝ × ℝ)) (idx : ℤ × ℤ → List GeoPoint)
    (cell_size : ℝ) (x : GeoPoint) :
    x ∈ gatherCandidates coords idx cell_size ↔
      ∃ v ∈ coords, ∃ c ∈ get_nearby_cells v.1 v.2 cell_size 1, x ∈ idx c := by
  rw [gatherCandidates_eq]
  constructor
  · intro h
    rcases outerG1 idx cell_size coords ([], []) x h with h0 | h
    · simp at h0
    · exact h
  · rintro ⟨v, hv, c, hc, hx⟩
    exact gather_complete idx cell_size coords v c x hv hc hx

lemma innerCongr (idx1 idx2 : ℤ × ℤ → List GeoPoint) :
    ∀ (cells : List (ℤ × ℤ)) (acc : List GeoPoint × List (ℤ × ℤ)),
      (∀ c ∈ cells, idx1 c = idx2 c) →
      cells.foldl (gatherStep idx1) acc = cells.foldl (gatherStep idx2) acc := by
  intro cells
  induction cells with
  | nil => intro acc _; rfl
  | cons c0 rest ih =>
    intro acc h
    rw [List.foldl_cons, List.foldl_cons]
    have hstep : gatherStep idx1 acc c0 = gatherStep idx2 acc c0 := by
      unfold gatherStep
      rw [h c0 (by simp)]
    rw [hstep]
    exact ih _ (fun c hc => h c (by simp [hc]))

set_option maxHeartbeats 1000000 in
lemma gather_congr (idx1 idx2 : ℤ × ℤ → List GeoPoint) (cell_size : ℝ) :
    ∀ (coords : List (ℝ × ℝ)) (acc : List GeoPoint × List (ℤ × ℤ)),
      (∀ v ∈ coords, ∀ c ∈ get_nearby_cells v.1 v.2 cell_size 1, idx1 c = idx2 c) →
      coords.foldl (gatherOuter idx1 cell_size) acc =
        coords.foldl (gatherOuter idx2 cell_size) acc := by
  intro coords
  induction coords with
  | nil => intro acc _; simp only [List.foldl_nil]
  | cons v0 rest ih =>
    intro acc h
    rw [List.foldl_cons, List.foldl_cons]
    have houter : gatherOuter idx1 cell_size acc v0 = gatherOuter idx2 cell_size acc v0 := by
      unfold gatherOuter
      exact innerCongr idx1 idx2 _ acc (fun c hc => h v0 (by simp) c hc)
    rw [houter]
    exact ih _ (fun v hv c hc => h v (by simp [hv]) c hc)

lemma build_cons_far (p : GeoPoint) (pts : List GeoPoint) (cell_size : ℝ) (c : ℤ × ℤ)
    (h : c ≠ cellKey p.lon p.lat cell_size) :
    build_spatial_index (p :: pts) cell_size c = build_spatial_index pts cell_size c := by
  rw [build_spatial_index_eq_filter, build_spatial_index_eq_filter]
  rw [List.filter_cons_of_neg]
  simp only [decide_eq_true_eq]
  exact fun hc => h hc.symm

/-- C10: the candidate gathering of the transect pipeline collects exactly
the indexed points whose grid cell is within one cell per axis of some
vertex's cell, and adding a point whose cell is farther than that from every
vertex's cell leaves the transect's computed record unchanged — such a point
is never projected and never appears in any profile. -/
theorem C10_candidate_cells :
    (∀ (pts : List GeoPoint) (cell_size : ℝ) (coords : List (ℝ × ℝ)) (x : GeoPoint),
      x ∈ gatherCandidates coords (build_spatial_index pts cell_size) cell_size ↔
        x ∈ pts ∧ ∃ v ∈ coords,
          |intTrunc (x.lon / cell_size) - intTrunc (v.1 / cell_size)| ≤ 1 ∧
          |intTrunc (x.lat / cell_size) - intTrunc (v.2 / cell_size)| ≤ 1) ∧
    (∀ (p : GeoPoint) (pts : List GeoPoint) (cell_size : ℝ) (f : TransectFeature),
      (∀ v ∈ f.coords,
        ¬(|intTrunc (p.lon / cell_size) - intTrunc (v.1 / cell_size)| ≤ 1 ∧
          |intTrunc (p.lat / cell_size) - intTrunc (v.2 / cell_size)| ≤ 1)) →
      compute_transect_timeseries f (build_spatial_index (p :: pts) cell_size) cell_size =
        compute_transect_timeseries f (build_spatial_index pts cell_size) cell_size) := by
  constructor
  · intro pts cell_size coords x
    rw [mem_gatherCandidates]
    constructor
    · rintro ⟨v, hv, c, hc, hx⟩
      obtain ⟨c1, c2⟩ := c
      obtain ⟨hxp, hkey⟩ := (mem_build_spatial_index pts cell_size (c1, c2) x).mp hx
      have hb := (mem_get_nearby_cells v.1 v.2 cell_size (c1, c2)).mp hc
      unfold cellKey at hkey
      rw [Prod.mk.injEq] at hkey
      refine ⟨hxp, v, hv, ?_, ?_⟩
      · rw [hkey.1]; exact hb.1
      · rw [hkey.2]; exact hb.2
    · rintro ⟨hxp, v, hv, h1, h2⟩
      refine ⟨v, hv, cellKey x.lon x.lat cell_size, ?_, ?_⟩
      · rw [mem_get_nearby_cells]
        exact ⟨h1, h2⟩
      · rw [mem_build_spatial_index]
        exact ⟨hxp, rfl⟩
  · intro p pts cell_size f hfar
    have hcells : ∀ v ∈ f.coords, ∀ c ∈ get_nearby_cells v.1 v.2 cell_size 1,
        build_spatial_index (p :: pts) cell_size c = build_spatial_index pts cell_size c := by
      intro v hv c hc
      apply build_cons_far
      intro hcc
      subst hcc
      have hb := (mem_get_nearby_cells v.1 v.2 cell_size _).mp hc
      unfold cellKey at hb
      exact hfar v hv ⟨hb.1, hb.2⟩
    have hcand : gatherCandidates f.coords (build_spatial_index (p :: pts) cell_size) cell_size =
        gatherCandidates f.coords (build_spatial_index pts cell_size) cell_size := by
      rw [gatherCandidates_eq, gatherCandidates_eq]
      rw [gather_congr _ _ cell_size f.coords ([], []) hcells]
    unfold compute_transect_timeseries
    rw [hcand]

lemma lon_to_m_eq : lon_to_m = LON_TO_M := by
  unfold lon_to_m LON_TO_M
  rfl

lemma lat_to_m_eq : lat_to_m = LAT_TO_M := by
  unfold lat_to_m LAT_TO_M
  rfl

/-- C8 (amended, positive half): every point the MOP per-point test accepts
is also accepted by `project_point_onto_transect` on the two-vertex line
from the MOP's start to its end, with the same perpendicular distance and
the same along-line distance. -/
theorem C8_mop_accept_implies_project (s e : ℝ × ℝ) (lon lat da od : ℝ)
    (hlen : 1 ≤ norm2 ((e.1 - s.1) * LON_TO_M) ((e.2 - s.2) * LAT_TO_M))
    (hcheck : mopPointCheck s e lon lat = some (da, od)) :
    project_point_onto_transect lon lat [s, e] = some (od, da) := by
  set X := (e.1 - s.1) * LON_TO_M with hX
  set Y := (e.2 - s.2) * LAT_TO_M with hY
  set L := norm2 X Y with hL
  set px := (lon - s.1) * LON_TO_M with hpx
  set py := (lat - s.2) * LAT_TO_M with hpy
  have hL0 : 0 < L := lt_of_lt_of_le one_pos hlen
  have hLne : L ≠ 0 := ne_of_gt hL0
  have hL2 : L ^ 2 = X ^ 2 + Y ^ 2 := by
    rw [hL]
    unfold norm2
    exact Real.sq_sqrt (by positivity)
  -- extract the acceptance facts from the MOP test
  unfold mopPointCheck at hcheck
  dsimp only at hcheck
  rw [← hL] at hcheck
  split_ifs at hcheck with hbbox hrange hbuf
  · -- accepted case
    have hpair := Option.some.inj hcheck
    have hda : px * (X / L) + py * (Y / L) = da := congrArg Prod.fst hpair
    have hod : norm2 (px - (px * (X / L) + py * (Y / L)) * (X / L))
        (py - (px * (X / L) + py * (Y / L)) * (Y / L)) = od := congrArg Prod.snd hpair
    push_neg at hrange
    rw [hda] at hrange hod
    have hda0 : 0 ≤ da := hrange.1
    have hdaL : da ≤ L := hrange.2
    have hbuf' : od ≤ BUFFER_M := by
      rw [hda, hod] at hbuf
      exact hbuf
    -- the single-segment projection computes the same quantities
    have hdot : px * X + py * Y = da * L := by
      rw [← hda]
      field_simp
    have hptsd : point_to_segment_distance lon lat s.1 s.2 e.1 e.2 = (od, da / L, da) := by
      unfold point_to_segment_distance
      rw [lon_to_m_eq, lat_to_m_eq]
      rw [← hX, ← hY, ← hpx, ← hpy]
      dsimp only
      rw [if_neg (by
        push_neg
        rw [← hL2]
        nlinarith)]
      have ht : max 0 (min 1 ((px * X + py * Y) / (X ^ 2 + Y ^ 2))) = da / L := by
        rw [hdot, ← hL2]
        rw [show da * L / L ^ 2 = da / L by
          field_simp
          ring]
        rw [min_eq_right (by
          rw [div_le_one hL0]
          exact hdaL)]
        rw [max_eq_right (by positivity)]
      rw [ht]
      have hsq : Real.sqrt (X ^ 2 + Y ^ 2) = L := by
        rw [hL]
        rfl
      rw [hsq]
      have hdist : Real.sqrt ((px - da / L * X) ^ 2 + (py - da / L * Y) ^ 2) = od := by
        rw [← hod]
        unfold norm2
        congr 1
        ring
      rw [hdist]
      have hal : da / L * L = da := div_mul_cancel₀ da hLne
      rw [hal]
    -- run the two-vertex projection loop
    unfold project_point_onto_transect projectLoop
    rw [hptsd]
    dsimp only
    rw [show (0 : ℝ) + da = da by ring]
    have hbm : od ≤ (1.0 : ℝ) := by
      unfold BUFFER_M at hbuf'
      exact hbuf'
    simp [projectLoop, hbm]
  all_goals exact absurd hcheck (by simp)

/-! Concrete evaluation scenarios used by the witnesses and
counterexamples: a single-segment west-east transect of planar length 10 m,
and a single-chord MOP line of length 2.4 m, with survey points placed
exactly on the lines. -/

/-- A 10 m transect along the equator from longitude 0. -/
def demoCoords : List (ℝ × ℝ) := [(0, 0), (10 / 92890, 0)]

/-- A survey point on the demo transect at along-distance `d` meters. -/
def demoPoint (d : ℝ) : GeoPoint := ⟨d / 92890, 0, 1, "fix", "2024-01-01"⟩

lemma ptsd_demo (d : ℝ) (h0 : 0 ≤ d) (h10 : d ≤ 10) :
    point_to_segment_distance (d / 92890) 0 0 0 (10 / 92890) 0 = (0, d / 10, d) := by
  unfold point_to_segment_distance lon_to_m lat_to_m
  dsimp only
  have e1 : ((d / 92890 : ℝ) - 0) * 92890 = d := by
    field_simp
  have e2 : ((0 : ℝ) - 0) * 110574 = 0 := by norm_num
  have e3 : ((10 / 92890 : ℝ) - 0) * 92890 = 10 := by
    norm_num
  rw [e1, e2, e3]
  rw [if_neg (by norm_num)]
  have ht : max 0 (min 1 ((d * 10 + 0 * 0) / ((10 : ℝ) ^ 2 + 0 ^ 2))) = d / 10 := by
    rw [show ((d * 10 + 0 * 0) / ((10 : ℝ) ^ 2 + 0 ^ 2)) = d / 10 by ring]
    rw [min_eq_right (show d / 10 ≤ 1 by linarith)]
    rw [max_eq_right (show (0 : ℝ) ≤ d / 10 by positivity)]
  rw [ht]
  have hs : Real.sqrt ((10 : ℝ) ^ 2 + 0 ^ 2) = 10 := by
    rw [show ((10 : ℝ) ^ 2 + 0 ^ 2) = 10 ^ 2 by norm_num]
    rw [Real.sqrt_sq (by norm_num)]
  rw [hs]
  have hz : Real.sqrt ((d - d / 10 * 10) ^ 2 + (0 - d / 10 * 0) ^ 2) = 0 := by
    rw [show ((d - d / 10 * 10) ^ 2 + (0 - d / 10 * 0) ^ 2 : ℝ) = 0 by ring]
    exact Real.sqrt_zero
  rw [hz]
  rw [Prod.mk.injEq, Prod.mk.injEq]
  exact ⟨rfl, rfl, by ring⟩

lemma demo_project (d : ℝ) (h0 : 0 ≤ d) (h10 : d ≤ 10) :
    project_point_onto_transect (d / 92890) 0 demoCoords = some (0, d) := by
  unfold demoCoords project_point_onto_transect projectLoop
  rw [ptsd_demo d h0 h10]
  simp [projectLoop]
  norm_num

/-- Goal-directed evaluation rule for `roundN` at concrete inputs. -/
lemma roundN_eq_of (n : ℕ) (x z : ℝ) (m : ℤ) (h1 : (m : ℝ) ≤ x * 10 ^ n + 1 / 2)
    (h2 : x * 10 ^ n + 1 / 2 < m + 1) (hz : (m : ℝ) / 10 ^ n = z) : roundN n x = z := by
  rw [roundN_eval n x m h1 h2, hz]

/-- The seven demo candidate points: GPS fixes 0.6 cm, 1.6 cm and 1.6 cm
along the line and four more at 1 m spacing.  Every rounding evaluation they
produce is well clear of an exact half, so Python's float `round` agrees with
the model on all of them. -/
def demoCands : List GeoPoint :=
  [demoPoint 0.006, demoPoint 0.016, demoPoint 0.016, demoPoint 1, demoPoint 2,
   demoPoint 3, demoPoint 4]

/-- A demo accepted record at rounded distance `dist`. -/
def demoRec (dist : ℝ) : ProjRecord := ⟨dist, 1, "fix", 0⟩

lemma demo_records :
    acceptedRecords demoCoords demoCands =
      [("2024-01-01", demoRec 0.01), ("2024-01-01", demoRec 0.02),
       ("2024-01-01", demoRec 0.02), ("2024-01-01", demoRec 1),
       ("2024-01-01", demoRec 2), ("2024-01-01", demoRec 3),
       ("2024-01-01", demoRec 4)] := by
  unfold acceptedRecords demoCands demoPoint demoRec
  simp only [List.filterMap_cons, List.filterMap_nil]
  rw [demo_project 0.006 (by norm_num) (by norm_num),
      demo_project 0.016 (by norm_num) (by norm_num),
      demo_project 1 (by norm_num) (by norm_num),
      demo_project 2 (by norm_num) (by norm_num),
      demo_project 3 (by norm_num) (by norm_num),
      demo_project 4 (by norm_num) (by norm_num)]
  simp only [Option.map_some', List.cons.injEq, Prod.mk.injEq, ProjRecord.mk.injEq,
    and_true, List.nil_eq]
  refine ⟨⟨trivial, ?_, ?_, trivial, ?_⟩, ⟨trivial, ?_, ?_, trivial, ?_⟩,
    ⟨trivial, ?_, ?_, trivial, ?_⟩, ⟨trivial, ?_, ?_, trivial, ?_⟩,
    ⟨trivial, ?_, ?_, trivial, ?_⟩, ⟨trivial, ?_, ?_, trivial, ?_⟩,
    trivial, ?_, ?_, trivial, ?_⟩
  · exact roundN_eq_of 2 _ _ 1 (by norm_num) (by norm_num) (by norm_num)
  · exact roundN_eq_of 3 _ _ 1000 (by norm_num) (by norm_num) (by norm_num)
  · exact roundN_eq_of 3 _ _ 0 (by norm_num) (by norm_num) (by norm_num)
  · exact roundN_eq_of 2 _ _ 2 (by norm_num) (by norm_num) (by norm_num)
  · exact roundN_eq_of 3 _ _ 1000 (by norm_num) (by norm_num) (by norm_num)
  · exact roundN_eq_of 3 _ _ 0 (by norm_num) (by norm_num) (by norm_num)
  · exact roundN_eq_of 2 _ _ 2 (by norm_num) (by norm_num) (by norm_num)
  · exact roundN_eq_of 3 _ _ 1000 (by norm_num) (by norm_num) (by norm_num)
  · exact roundN_eq_of 3 _ _ 0 (by norm_num) (by norm_num) (by norm_num)
  · exact roundN_eq_of 2 _ _ 100 (by norm_num) (by norm_num) (by norm_num)
  · exact roundN_eq_of 3 _ _ 1000 (by norm_num) (by norm_num) (by norm_num)
  · exact roundN_eq_of 3 _ _ 0 (by norm_num) (by norm_num) (by norm_num)
  · exact roundN_eq_of 2 _ _ 200 (by norm_num) (by norm_num) (by norm_num)
  · exact roundN_eq_of 3 _ _ 1000 (by norm_num) (by norm_num) (by norm_num)
  · exact roundN_eq_of 3 _ _ 0 (by norm_num) (by norm_num) (by norm_num)
  · exact roundN_eq_of 2 _ _ 300 (by norm_num) (by norm_num) (by norm_num)
  · exact roundN_eq_of 3 _ _ 1000 (by norm_num) (by norm_num) (by norm_num)
  · exact roundN_eq_of 3 _ _ 0 (by norm_num) (by norm_num) (by norm_num)
  · exact roundN_eq_of 2 _ _ 400 (by norm_num) (by norm_num) (by norm_num)
  · exact roundN_eq_of 3 _ _ 1000 (by norm_num) (by norm_num) (by norm_num)
  · exact roundN_eq_of 3 _ _ 0 (by norm_num) (by norm_num) (by norm_num)

lemma demo_pointsForDate :
    pointsForDate (acceptedRecords demoCoords demoCands) "2024-01-01" =
      [demoRec 0.01, demoRec 0.02, demoRec 0.02, demoRec 1, demoRec 2,
       demoRec 3, demoRec 4] := by
  rw [demo_records]
  unfold pointsForDate
  simp

lemma demo_sorted :
    ([demoRec 0.01, demoRec 0.02, demoRec 0.02, demoRec 1, demoRec 2, demoRec 3,
      demoRec 4]).mergeSort (fun a b => decide (a.distance ≤ b.distance)) =
    [demoRec 0.01, demoRec 0.02, demoRec 0.02, demoRec 1, demoRec 2, demoRec 3,
      demoRec 4] := by
  apply List.mergeSort_of_sorted
  unfold demoRec
  simp only [List.pairwise_cons, List.mem_cons, List.mem_singleton]
  norm_num

lemma demo_chunks :
    chunksBy [demoRec 0.01, demoRec 0.02, demoRec 0.02, demoRec 1, demoRec 2,
      demoRec 3, demoRec 4] =
      [(demoRec 0.01, [demoRec 0.02, demoRec 0.02]), (demoRec 1, []), (demoRec 2, []),
       (demoRec 3, []), (demoRec 4, [])] := by
  unfold demoRec
  norm_num [chunksBy, takeGroup]

lemma demo_dedup :
    deduplicated [demoRec 0.01, demoRec 0.02, demoRec 0.02, demoRec 1, demoRec 2,
      demoRec 3, demoRec 4] = [⟨0.02, 1⟩, ⟨1, 1⟩, ⟨2, 1⟩, ⟨3, 1⟩, ⟨4, 1⟩] := by
  rw [deduplicated_eq_chunks, demo_chunks]
  simp only [List.map_cons, List.map_nil]
  unfold avgBin demoRec
  simp only [List.cons.injEq, BinRec.mk.injEq, List.nil_eq, and_true]
  norm_num
  refine ⟨⟨?_, ?_⟩, ⟨?_, ?_⟩, ⟨?_, ?_⟩, ⟨?_, ?_⟩, ⟨?_, ?_⟩⟩
  · exact roundN_eq_of 2 _ _ 2 (by norm_num) (by norm_num) (by norm_num)
  · exact roundN_eq_of 3 _ _ 1000 (by norm_num) (by norm_num) (by norm_num)
  · exact roundN_eq_of 2 _ _ 100 (by norm_num) (by norm_num) (by norm_num)
  · exact roundN_eq_of 3 _ _ 1000 (by norm_num) (by norm_num) (by norm_num)
  · exact roundN_eq_of 2 _ _ 200 (by norm_num) (by norm_num) (by norm_num)
  · exact roundN_eq_of 3 _ _ 1000 (by norm_num) (by norm_num) (by norm_num)
  · exact roundN_eq_of 2 _ _ 300 (by norm_num) (by norm_num) (by norm_num)
  · exact roundN_eq_of 3 _ _ 1000 (by norm_num) (by norm_num) (by norm_num)
  · exact roundN_eq_of 2 _ _ 400 (by norm_num) (by norm_num) (by norm_num)
  · exact roundN_eq_of 3 _ _ 1000 (by norm_num) (by norm_num) (by norm_num)

lemma demo_dateProfile :
    dateProfile (acceptedRecords demoCoords demoCands) "2024-01-01" =
      some ⟨[0.02, 1, 2, 3, 4], [1, 1, 1, 1, 1], 5⟩ := by
  unfold dateProfile
  rw [demo_pointsForDate]
  dsimp only
  rw [demo_sorted, demo_dedup]
  norm_num

/-- C6 counterexample: three accepted points with raw along-line distances
0.006, 0.016 and 0.016 m are stored with the rounded distances 0.01, 0.02 and
0.02, which form one group, so the emitted bin distance is
`round((0.01+0.02+0.02)/3, 2) = round(0.01666.., 2) = 0.02`, while the
claim's rounded mean of the raw distances is
`round((0.006+0.016+0.016)/3, 2) = round(0.012666.., 2) = 0.01`.  None of
these evaluations is within 0.0015 of an exact rounding tie, so the float
computation rounds identically. -/
theorem C6_counterexample :
    project_point_onto_transect (0.006 / 92890) 0 demoCoords = some (0, 0.006) ∧
    project_point_onto_transect (0.016 / 92890) 0 demoCoords = some (0, 0.016) ∧
    dateProfile (acceptedRecords demoCoords demoCands) "2024-01-01" =
      some ⟨[0.02, 1, 2, 3, 4], [1, 1, 1, 1, 1], 5⟩ ∧
    roundN 2 ((0.006 + 0.016 + 0.016) / 3) = 0.01 ∧
    (0.02 : ℝ) ≠ 0.01 := by
  refine ⟨demo_project 0.006 (by norm_num) (by norm_num),
    demo_project 0.016 (by norm_num) (by norm_num), demo_dateProfile, ?_, by norm_num⟩
  exact roundN_eq_of 2 _ _ 1 (by norm_num) (by norm_num) (by norm_num)

/-- A single-chord MOP line 2.4 m long along the equator. -/
def demoMop : MopLine :=
  ⟨"MOP_1", [(0, 0), (12 / 464450, 0)], (0, 0), (12 / 464450, 0)⟩

/-- Five survey points on the demo MOP chord. -/
def demoMopPts : List (ℝ × ℝ × ℝ) :=
  [(0.498 / 92890, 0, 1), (0.5 / 92890, 0, 1), (1 / 92890, 0, 1),
   (1.5 / 92890, 0, 1), (2 / 92890, 0, 1)]

/-- The demo point set grouped by survey date. -/
def demoPbd : List (String × List (ℝ × ℝ × ℝ)) := [("2024-01-01", demoMopPts)]

lemma demo_mop_len :
    norm2 (((12 / 464450 : ℝ) - 0) * LON_TO_M) (((0 : ℝ) - 0) * LAT_TO_M) = 2.4 := by
  unfold norm2 LON_TO_M LAT_TO_M
  rw [show (((12 / 464450 : ℝ) - 0) * 92890) ^ 2 + (((0 : ℝ) - 0) * 110574) ^ 2 =
    (2.4 : ℝ) ^ 2 by norm_num]
  rw [Real.sqrt_sq (by norm_num)]

lemma demo_mopCheck (d : ℝ) (h0 : 0 ≤ d) (h24 : d ≤ 2.4) :
    mopPointCheck (0, 0) (12 / 464450, 0) (d / 92890) 0 = some (d, 0) := by
  unfold mopPointCheck LON_TO_M LAT_TO_M BUFFER_M
  dsimp only
  have e1 : ((12 / 464450 : ℝ) - 0) * 92890 = 2.4 := by norm_num
  have e2 : ((0 : ℝ) - 0) * 110574 = 0 := by norm_num
  rw [e1, e2]
  have eL : norm2 (2.4 : ℝ) 0 = 2.4 := by
    unfold norm2
    rw [show ((2.4 : ℝ) ^ 2 + (0 : ℝ) ^ 2) = (2.4 : ℝ) ^ 2 by norm_num]
    rw [Real.sqrt_sq (by norm_num)]
  rw [eL]
  have epx : ((d / 92890 : ℝ) - 0) * 92890 = d := by field_simp
  rw [epx]
  rw [if_pos ?hbbox]
  case hbbox =>
    refine ⟨?_, ?_, ?_, ?_⟩
    · rw [min_eq_left (by norm_num : (0 : ℝ) ≤ 12 / 464450)]
      have : (0 : ℝ) ≤ d / 92890 := by positivity
      linarith
    · rw [max_eq_right (by norm_num : (0 : ℝ) ≤ 12 / 464450)]
      have : d / 92890 ≤ 2.4 / 92890 := by
        apply div_le_div_of_nonneg_right h24
        norm_num
      have h2 : (2.4 : ℝ) / 92890 ≤ 12 / 464450 := by norm_num
      linarith
    · rw [min_eq_left (le_refl (0 : ℝ))]
      norm_num
    · rw [max_eq_right (le_refl (0 : ℝ))]
      norm_num
  have eda : d * ((2.4 : ℝ) / 2.4) + 0 * ((0 : ℝ) / 2.4) = d := by
    norm_num
  rw [eda]
  rw [if_neg (by push_neg; exact ⟨h0, h24⟩)]
  have eortho : norm2 (d - d * ((2.4 : ℝ) / 2.4)) ((0 : ℝ) - d * ((0 : ℝ) / 2.4)) = 0 := by
    unfold norm2
    rw [show ((d - d * ((2.4 : ℝ) / 2.4)) ^ 2 + (((0 : ℝ) - d * ((0 : ℝ) / 2.4))) ^ 2) = 0 by norm_num]
    exact Real.sqrt_zero
  rw [eortho]
  rw [if_pos (by norm_num)]

lemma demo_bins : mopBins 2.4 = [0, 0.5, 1, 1.5, 2, 2.5] := by
  unfold mopBins
  rw [show Nat.ceil (((2.4 : ℝ) + 0.5 - 0) / 0.5) = 6 by
    rw [Nat.ceil_eq_iff (by norm_num)]; norm_num]
  rw [show List.range 6 = [0, 1, 2, 3, 4, 5] from rfl]
  simp only [List.map_cons, List.map_nil, List.cons.injEq, List.nil_eq, and_true]
  norm_num

lemma demo_dig1 : digitize 0.498 (mopBins 2.4) = 1 := by
  rw [demo_bins]
  unfold digitize
  norm_num [List.filter_cons, decide_eq_true_eq]

lemma demo_dig2 : digitize 0.5 (mopBins 2.4) = 2 := by
  rw [demo_bins]
  unfold digitize
  norm_num [List.filter_cons, decide_eq_true_eq]

lemma demo_dig3 : digitize 1 (mopBins 2.4) = 3 := by
  rw [demo_bins]
  unfold digitize
  norm_num [List.filter_cons, decide_eq_true_eq]

lemma demo_dig4 : digitize 1.5 (mopBins 2.4) = 4 := by
  rw [demo_bins]
  unfold digitize
  norm_num [List.filter_cons, decide_eq_true_eq]

lemma demo_dig5 : digitize 2 (mopBins 2.4) = 5 := by
  rw [demo_bins]
  unfold digitize
  norm_num [List.filter_cons, decide_eq_true_eq]

lemma demo_groups :
    mopGroups [((0.498 : ℝ), (1 : ℝ)), (0.5, 1), (1, 1), (1.5, 1), (2, 1)] (mopBins 2.4) =
      [[((0.498 : ℝ), (1 : ℝ))], [(0.5, 1)], [(1, 1)], [(1.5, 1)], [(2, 1)]] := by
  unfold mopGroups
  rw [show (mopBins 2.4).length = 6 by rw [demo_bins]; rfl]
  rw [show (List.range 6).drop 1 = [1, 2, 3, 4, 5] from rfl]
  simp only [List.filterMap_cons, List.filterMap_nil]
  simp only [List.filter_cons, List.filter_nil, demo_dig1, demo_dig2, demo_dig3,
    demo_dig4, demo_dig5]
  norm_num

lemma demo_mop_sorted :
    ([((0.498 : ℝ), (1 : ℝ)), (0.5, 1), (1, 1), (1.5, 1), (2, 1)]).mergeSort
      (fun a b => decide (a.1 ≤ b.1)) =
    [((0.498 : ℝ), (1 : ℝ)), (0.5, 1), (1, 1), (1.5, 1), (2, 1)] := by
  apply List.mergeSort_of_sorted
  simp only [List.pairwise_cons, List.mem_cons, List.mem_singleton]
  norm_num

lemma demo_mopProfile :
    mopProfile 2.4 [((0.498 : ℝ), (1 : ℝ)), (0.5, 1), (1, 1), (1.5, 1), (2, 1)] =
      some ⟨[0.5, 0.5, 1, 1.5, 2], [1, 1, 1, 1, 1]⟩ := by
  unfold mopProfile
  rw [if_pos (by norm_num)]
  dsimp only
  rw [demo_mop_sorted, demo_groups]
  simp only [List.map_cons, List.map_nil]
  rw [if_pos (by norm_num)]
  simp only [Option.some.injEq, MopProfile.mk.injEq]
  simp only [List.map_cons, List.map_nil, List.cons.injEq, List.nil_eq, and_true]
  constructor
  · refine ⟨?_, ?_, ?_, ?_, ?_⟩
    · exact roundN_eq_of 2 _ _ 50 (by norm_num) (by norm_num) (by norm_num)
    · exact roundN_eq_of 2 _ _ 50 (by norm_num) (by norm_num) (by norm_num)
    · exact roundN_eq_of 2 _ _ 100 (by norm_num) (by norm_num) (by norm_num)
    · exact roundN_eq_of 2 _ _ 150 (by norm_num) (by norm_num) (by norm_num)
    · exact roundN_eq_of 2 _ _ 200 (by norm_num) (by norm_num) (by norm_num)
  · refine ⟨?_, ?_, ?_, ?_, ?_⟩ <;>
      exact roundN_eq_of 3 _ _ 1000 (by norm_num) (by norm_num) (by norm_num)

lemma demo_mop_eval :
    compute_mop_timeseries demoMop demoPbd =
      some ⟨"MOP_1", 2.4, 1,
        [("2024-01-01", ⟨[0.5, 0.5, 1, 1.5, 2], [1, 1, 1, 1, 1]⟩)]⟩ := by
  unfold compute_mop_timeseries demoMop demoPbd demoMopPts
  dsimp only
  rw [demo_mop_len]
  rw [if_neg (by norm_num)]
  simp only [List.filterMap_cons, List.filterMap_nil]
  rw [demo_mopCheck 0.498 (by norm_num) (by norm_num),
      demo_mopCheck 0.5 (by norm_num) (by norm_num),
      demo_mopCheck 1 (by norm_num) (by norm_num),
      demo_mopCheck 1.5 (by norm_num) (by norm_num),
      demo_mopCheck 2 (by norm_num) (by norm_num)]
  simp only [Option.map_some']
  rw [demo_mopProfile]
  simp only [Option.map_some', List.length_cons, List.length_nil]
  rw [if_neg (by norm_num)]
  simp only [Option.some.injEq, MopRecord.mk.injEq]
  refine ⟨trivial, ?_, trivial, trivial⟩
  exact roundN_eq_of 1 _ _ 24 (by norm_num) (by norm_num) (by norm_num)

lemma ptsd_demo_far :
    point_to_segment_distance (10.5 / 92890) 0 0 0 (10 / 92890) 0 = (0.5, 1, 10) := by
  unfold point_to_segment_distance lon_to_m lat_to_m
  dsimp only
  have e1 : ((10.5 / 92890 : ℝ) - 0) * 92890 = 10.5 := by norm_num
  have e2 : ((0 : ℝ) - 0) * 110574 = 0 := by norm_num
  have e3 : ((10 / 92890 : ℝ) - 0) * 92890 = 10 := by norm_num
  rw [e1, e2, e3]
  rw [if_neg (by norm_num)]
  have ht : max 0 (min 1 (((10.5 : ℝ) * 10 + 0 * 0) / ((10 : ℝ) ^ 2 + 0 ^ 2))) = 1 := by
    rw [show (((10.5 : ℝ) * 10 + 0 * 0) / ((10 : ℝ) ^ 2 + 0 ^ 2)) = 1.05 by norm_num]
    rw [min_eq_left (by norm_num), max_eq_right (by norm_num)]
  rw [ht]
  have hs : Real.sqrt ((10 : ℝ) ^ 2 + 0 ^ 2) = 10 := by
    rw [show ((10 : ℝ) ^ 2 + 0 ^ 2) = 10 ^ 2 by norm_num]
    rw [Real.sqrt_sq (by norm_num)]
  rw [hs]
  have hz : Real.sqrt (((10.5 : ℝ) - 1 * 10) ^ 2 + ((0 : ℝ) - 1 * 0) ^ 2) = 0.5 := by
    rw [show (((10.5 : ℝ) - 1 * 10) ^ 2 + ((0 : ℝ) - 1 * 0) ^ 2) = (0.5 : ℝ) ^ 2 by norm_num]
    rw [Real.sqrt_sq (by norm_num)]
  rw [hz]
  rw [Prod.mk.injEq, Prod.mk.injEq]
  exact ⟨rfl, rfl, by norm_num⟩

lemma demo_mopCheck_far :
    mopPointCheck (0, 0) (10 / 92890, 0) (10.5 / 92890) 0 = none := by
  unfold mopPointCheck LON_TO_M LAT_TO_M BUFFER_M
  dsimp only
  have e1 : ((10 / 92890 : ℝ) - 0) * 92890 = 10 := by norm_num
  have e2 : ((0 : ℝ) - 0) * 110574 = 0 := by norm_num
  rw [e1, e2]
  have eL : norm2 (10 : ℝ) 0 = 10 := by
    unfold norm2
    rw [show ((10 : ℝ) ^ 2 + (0 : ℝ) ^ 2) = (10 : ℝ) ^ 2 by norm_num]
    rw [Real.sqrt_sq (by norm_num)]
  rw [eL]
  have epx : ((10.5 / 92890 : ℝ) - 0) * 92890 = 10.5 := by norm_num
  rw [epx]
  rw [if_pos ?hbbox]
  case hbbox =>
    refine ⟨?_, ?_, ?_, ?_⟩
    · rw [min_eq_left (by norm_num : (0 : ℝ) ≤ 10 / 92890)]
      norm_num
    · rw [max_eq_right (by norm_num : (0 : ℝ) ≤ 10 / 92890)]
      norm_num
    · rw [min_eq_left (le_refl (0 : ℝ))]
      norm_num
    · rw [max_eq_right (le_refl (0 : ℝ))]
      norm_num
  have eda : (10.5 : ℝ) * ((10 : ℝ) / 10) + 0 * ((0 : ℝ) / 10) = 10.5 := by
    norm_num
  rw [eda]
  rw [if_pos (Or.inr (by norm_num))]

/-- C8 counterexample: a point 0.5 m past the end of a 10 m line.  The
transect projection clamps the parameter to the segment ends and accepts the
point at perpendicular distance 0.5 m and along-distance 10 m, while the MOP
chord test rejects it because its raw along-chord distance 10.5 m exceeds the
chord length — so the two acceptance tests are not equivalent on the same
line. -/
theorem C8_counterexample :
    project_point_onto_transect (10.5 / 92890) 0 [((0 : ℝ), (0 : ℝ)), (10 / 92890, 0)] =
      some (0.5, 10) ∧
    mopPointCheck ((0 : ℝ), (0 : ℝ)) (10 / 92890, 0) (10.5 / 92890) 0 = none := by
  refine ⟨?_, demo_mopCheck_far⟩
  unfold project_point_onto_transect projectLoop
  rw [ptsd_demo_far]
  simp [projectLoop]
  norm_num

/-- C5 counterexample: two sorted records whose distances differ by exactly
0.5 m.  The code's grouping test is the strict `distance difference < 0.5`,
so the second record does NOT stay in the first record's group as the claim
states: the loop produces two groups — the second record heads a group of its
own — and hence two emitted bins instead of one merged bin. -/
theorem C5_counterexample :
    (demoRec 0.5).distance - (demoRec 0).distance = 0.5 ∧
    chunksBy [demoRec 0, demoRec 0.5] = [(demoRec 0, []), (demoRec 0.5, [])] ∧
    deduplicated [demoRec 0, demoRec 0.5] = [⟨0, 1⟩, ⟨0.5, 1⟩] ∧
    (deduplicated [demoRec 0, demoRec 0.5]).length = 2 := by
  have hchunks : chunksBy [demoRec 0, demoRec 0.5] =
      [(demoRec 0, []), (demoRec 0.5, [])] := by
    unfold demoRec
    norm_num [chunksBy, takeGroup]
  have hdedup : deduplicated [demoRec 0, demoRec 0.5] = [⟨0, 1⟩, ⟨0.5, 1⟩] := by
    rw [deduplicated_eq_chunks, hchunks]
    simp only [List.map_cons, List.map_nil]
    unfold avgBin demoRec
    simp only [List.cons.injEq, BinRec.mk.injEq, List.nil_eq, and_true]
    norm_num
    refine ⟨⟨?_, ?_⟩, ?_, ?_⟩
    · exact roundN_eq_of 2 _ _ 0 (by norm_num) (by norm_num) (by norm_num)
    · exact roundN_eq_of 3 _ _ 1000 (by norm_num) (by norm_num) (by norm_num)
    · exact roundN_eq_of 2 _ _ 50 (by norm_num) (by norm_num) (by norm_num)
    · exact roundN_eq_of 3 _ _ 1000 (by norm_num) (by norm_num) (by norm_num)
  refine ⟨by unfold demoRec; norm_num, hchunks, hdedup, by rw [hdedup]; rfl⟩

/-- C3 counterexample: on the demo MOP line the emitted profile's distances
are `[0.5, 0.5, 1, 1.5, 2]` — the first two bins round to the same value, so
the emitted distances of a MOP profile are not strictly increasing. -/
theorem C3_counterexample :
    compute_mop_timeseries demoMop demoPbd =
      some ⟨"MOP_1", 2.4, 1,
        [("2024-01-01", ⟨[0.5, 0.5, 1, 1.5, 2], [1, 1, 1, 1, 1]⟩)]⟩ ∧
    ¬ List.Chain' (· < ·) [(0.5 : ℝ), 0.5, 1, 1.5, 2] := by
  refine ⟨demo_mop_eval, ?_⟩
  intro h
  rw [List.chain'_cons] at h
  exact absurd h.1 (by norm_num)

/-- Witness: C1 instantiated on the concrete 10 m demo transect. -/
theorem C1_buffer_semantics_witness :
    2 ≤ demoCoords.length ∧
    ((project_point_onto_transect 0 0 demoCoords = none ↔
        ∀ s ∈ segPairs demoCoords, 1 < segDist 0 0 s) ∧
      (∀ d b : ℝ, project_point_onto_transect 0 0 demoCoords = some (d, b) →
        d ≤ 1 ∧ (∃ s ∈ segPairs demoCoords, segDist 0 0 s = d) ∧
        (∀ s ∈ segPairs demoCoords, d ≤ segDist 0 0 s))) :=
  ⟨by simp [demoCoords], C1_buffer_semantics 0 0 demoCoords (by simp [demoCoords])⟩

/-- Witness: C2 instantiated at the accepted demo point 1 m along the line. -/
theorem C2_along_line_distance_witness :
    (2 ≤ demoCoords.length ∧
      project_point_onto_transect (1 / 92890) 0 demoCoords = some (0, 1)) ∧
    ∃ i : Fin (segPairs demoCoords).length,
      segDist (1 / 92890) 0 ((segPairs demoCoords).get i) = 0 ∧
      (∀ j : Fin (segPairs demoCoords).length, (j : ℕ) < (i : ℕ) →
        0 < segDist (1 / 92890) 0 ((segPairs demoCoords).get j)) ∧
      (∀ j : Fin (segPairs demoCoords).length,
        0 ≤ segDist (1 / 92890) 0 ((segPairs demoCoords).get j)) ∧
      (1 : ℝ) = (((segPairs demoCoords).take i).map segHav).sum +
          (point_to_segment_distance (1 / 92890) 0 ((segPairs demoCoords).get i).1.1
            ((segPairs demoCoords).get i).1.2 ((segPairs demoCoords).get i).2.1
            ((segPairs demoCoords).get i).2.2).2.1 *
          Real.sqrt (seg_len_sq ((segPairs demoCoords).get i).1
            ((segPairs demoCoords).get i).2) :=
  ⟨⟨by simp [demoCoords], demo_project 1 (by norm_num) (by norm_num)⟩,
   C2_along_line_distance (1 / 92890) 0 0 1 demoCoords (by simp [demoCoords])
     (demo_project 1 (by norm_num) (by norm_num))⟩

lemma demo_mop_hlen :
    1 ≤ norm2 (((12 / 464450 : ℝ) - 0) * LON_TO_M) (((0 : ℝ) - 0) * LAT_TO_M) := by
  rw [demo_mop_len]
  norm_num

/-- Witness: C8 instantiated at the accepted demo point 1 m along the MOP
chord. -/
theorem C8_mop_accept_implies_project_witness :
    (1 ≤ norm2 (((12 / 464450 : ℝ) - 0) * LON_TO_M) (((0 : ℝ) - 0) * LAT_TO_M) ∧
      mopPointCheck ((0 : ℝ), (0 : ℝ)) (12 / 464450, 0) (1 / 92890) 0 = some (1, 0)) ∧
    project_point_onto_transect (1 / 92890) 0
      [((0 : ℝ), (0 : ℝ)), (12 / 464450, 0)] = some (0, 1) :=
  ⟨⟨demo_mop_hlen, demo_mopCheck 1 (by norm_num) (by norm_num)⟩,
   C8_mop_accept_implies_project ((0 : ℝ), (0 : ℝ)) (12 / 464450, 0) (1 / 92890) 0 1 0
     demo_mop_hlen (demo_mopCheck 1 (by norm_num) (by norm_num))⟩

end

end Sand